import Mathlib

/-!
# Verification of the SANA-FE simulation kernel

A shallow embedding, in Lean 4, of the SANA-FE neuromorphic-chip simulator
kernel: the NoC-aware message scheduler (`src/schedule.cpp`) and the
per-timestep neuron/message processing pipeline (`pipeline.cpp`), together
with proofs and refutations of the specification's claims about them.

Real (`double`) arithmetic of the C++ source is embedded as exact rational
arithmetic (`ℚ`); all divergences established below are structural (which
links are updated, which branch runs, which quantities are summed) and do
not hinge on floating-point rounding.
-/

namespace SanaFe

/-! ## Direction constants

Modelled from the spec: the `Direction` enum and `ndirections` come from
`schedule.hpp`, which is not part of the provided sources.  The spec (§3)
lists the inter-tile directions as north, east, south, west, followed by
the intra-tile links `[ndirections, ndirections + max_cores_per_tile)`. -/

def north : Int := 0
def east : Int := 1
def south : Int := 2
def west : Int := 3
def ndirections : Int := 4

/-! ## Messages

From `Message` in `src/chip.hpp` (lines 211-242).  Fields that none of the
modelled kernel functions read or write (`blocked_delay`, `spikes`,
`src_neuron_group_id`, trace-only ids) are omitted.  `double` fields are
`ℚ`; the timestamps' `-inf` C++ defaults are modelled as `0` — the kernel
assigns each timestamp before it ever reads it on the paths embedded
here. -/

structure Message where
  generation_delay : ℚ := 0
  network_delay : ℚ := 0
  receive_delay : ℚ := 0
  sent_timestamp : ℚ := 0
  received_timestamp : ℚ := 0
  processed_timestamp : ℚ := 0
  hops : Nat := 0
  src_neuron_id : Nat := 0
  src_x : Int := 0
  dest_x : Int := 0
  src_y : Int := 0
  dest_y : Int := 0
  src_core_id : Nat := 0
  dest_core_id : Nat := 0
  src_core_offset : Int := 0
  dest_core_offset : Int := 0
  dest_axon_hw : Nat := 0
  dest_axon_id : Nat := 0
  placeholder : Bool := true
  in_noc : Bool := false
deriving Repr, DecidableEq

/-- Modelled from the spec: the `Scheduler` configuration record
(§4.5.1) declared in the missing `schedule.hpp`:
`{noc_width, noc_height, core_count, max_cores_per_tile, buffer_size}`. -/
structure Scheduler where
  noc_width : Nat
  noc_height : Nat
  core_count : Nat
  max_cores_per_tile : Nat
  buffer_size : Nat
deriving Repr

/-- The scheduler's NoC bookkeeping state, from `NocInfo` in the missing
`schedule.hpp` as used by `src/schedule.cpp`.  The link-density vector
`message_density` indexed through `NocInfo::idx(x, y, link)` is modelled
as a function from `(x, y, link)` triples to densities; `idx` (missing
header) is injective on in-range triples, so this is faithful for all
accesses the kernel performs.  `messages_in_noc` is a C++ `long int`,
hence `Int`. -/
structure NocInfo where
  message_density : Int × Int × Int → ℚ
  messages_in_noc : Int := 0
  mean_in_flight_receive_delay : ℚ := 0
  messages_received : List (List Message)
  core_finished_receiving : List ℚ

/-- `n` coordinates counting up from `src`: `src, src+1, …, src+n-1`. -/
def coordAsc (src : Int) : Nat → List Int
  | 0 => []
  | n + 1 => src :: coordAsc (src + 1) n

/-- `n` coordinates counting down from `src`: `src, src-1, …, src-n+1`. -/
def coordDesc (src : Int) : Nat → List Int
  | 0 => []
  | n + 1 => src :: coordDesc (src - 1) n

/-- The coordinates visited by `for (int x = m.src_x; x != m.dest_x; x
+= x_increment)` in `schedule.cpp`, where `x_increment` is `1` if
`src_x < dest_x` and `-1` otherwise. -/
def coordRange (src dest : Int) : List Int :=
  if src < dest then coordAsc src (dest - src).toNat
  else coordDesc src (src - dest).toNat

/-- The ordered list of `(x, y, link)` density entries that
`schedule_update_noc_message_counts` increments and that
`schedule_calculate_messages_along_route` sums (`src/schedule.cpp`
lines 192-264 and 303-361; both functions traverse the identical
branches in the identical order, so the traversal is defined once).
The first x-loop iteration and the first y-loop iteration when
`src_x == dest_x` touch the source core's intra-tile link
`ndirections + src_core_offset`; later iterations touch the direction
link of the previous hop via `prev_direction`; the final (destination)
entry uses `prev_direction`, or the source core link when source and
destination tiles coincide. -/
def route_links (m : Message) : List (Int × Int × Int) :=
  let dirX : Int := if m.src_x < m.dest_x then east else west
  let dirY : Int := if m.src_y < m.dest_y then north else south
  let srcLink : Int := ndirections + m.src_core_offset
  let xs := coordRange m.src_x m.dest_x
  let xEntries := xs.map (fun x =>
    if x = m.src_x then (x, m.src_y, srcLink) else (x, m.src_y, dirX))
  -- prev_direction as it stands after the x loop
  let prev0 : Int := if xs.isEmpty then srcLink else dirX
  let ys := coordRange m.src_y m.dest_y
  let yEntries :=
    match ys with
    | [] => []
    | y0 :: rest =>
        (if m.src_x = m.dest_x then (m.dest_x, y0, srcLink)
         else (m.dest_x, y0, prev0)) ::
          rest.map (fun y => (m.dest_x, y, dirY))
  -- prev_direction as it stands after the y loop
  let prev1 : Int := if ys.isEmpty then prev0 else dirY
  let finalEntry :=
    if m.src_x = m.dest_x ∧ m.src_y = m.dest_y then (m.dest_x, m.dest_y, srcLink)
    else (m.dest_x, m.dest_y, prev1)
  xEntries ++ yEntries ++ [finalEntry]

/-- `sanafe::schedule_update_noc_message_counts` (`src/schedule.cpp`
lines 170-291): adjust every density entry along the message's route by
`±1/(2 + hops)` and update the rolling mean and the in-NoC count. -/
def schedule_update_noc_message_counts (m : Message) (noc : NocInfo)
    (message_in : Bool) : NocInfo :=
  let adjust : ℚ := (if message_in then 1 else -1) / (2 + (m.hops : ℚ))
  let density := (route_links m).foldl
    (fun d k => fun k' => if k' = k then d k' + adjust else d k')
    noc.message_density
  if message_in then
    { noc with
      message_density := density
      mean_in_flight_receive_delay := noc.mean_in_flight_receive_delay +
        (m.receive_delay - noc.mean_in_flight_receive_delay) /
          ((noc.messages_in_noc : ℚ) + 1)
      messages_in_noc := noc.messages_in_noc + 1 }
  else
    { noc with
      message_density := density
      mean_in_flight_receive_delay :=
        if noc.messages_in_noc > 1 then
          noc.mean_in_flight_receive_delay +
            (noc.mean_in_flight_receive_delay - m.receive_delay) /
              ((noc.messages_in_noc : ℚ) - 1)
        else 0
      messages_in_noc := noc.messages_in_noc - 1 }

/-- `sanafe::schedule_calculate_messages_along_route`
(`src/schedule.cpp` lines 293-368): sum the density entries along the
message's route. -/
def schedule_calculate_messages_along_route (m : Message) (noc : NocInfo) : ℚ :=
  (route_links m).foldl (fun acc k => acc + noc.message_density k) 0

/-- One pass of the inner `while` of `sanafe::schedule_update_noc`
(`src/schedule.cpp` lines 370-401) over a single receive queue: every
message that is in the NoC and whose `received_timestamp` has elapsed by
time `t` is removed from the queue and its route densities are
decremented. -/
def schedule_update_noc_queue (t : ℚ) :
    List Message → NocInfo → List Message × NocInfo
  | [], noc => ([], noc)
  | m :: rest, noc =>
      if m.in_noc ∧ t ≥ m.received_timestamp then
        let noc' := schedule_update_noc_message_counts { m with in_noc := false } noc false
        schedule_update_noc_queue t rest noc'
      else
        let (q', noc') := schedule_update_noc_queue t rest noc
        (m :: q', noc')

/-- The outer loop of `sanafe::schedule_update_noc`: sweep the removal
pass over a list of receive queues, threading the NoC counters. -/
def schedule_update_noc_go (t : ℚ) :
    List (List Message) → NocInfo → List (List Message) × NocInfo
  | [], noc => ([], noc)
  | q :: qs, noc =>
      let (q', noc') := schedule_update_noc_queue t q noc
      let (qs', noc'') := schedule_update_noc_go t qs noc'
      (q' :: qs', noc'')

/-- `sanafe::schedule_update_noc` (`src/schedule.cpp` lines 370-401):
apply the removal pass to every per-core receive queue. -/
def schedule_update_noc (t : ℚ) (noc : NocInfo) : NocInfo :=
  let (qs, noc') := schedule_update_noc_go t noc.messages_received noc
  { noc' with messages_received := qs }

/-! ## The priority queue and the scheduler main loop

Modelled from the spec: `MessagePriorityQueue` is declared in the missing
`schedule.hpp`; §4.5.3 specifies a min-heap keyed by `sent_timestamp`
and §4.5.6 stable tie-breaking by insertion order.  The heap is embedded
as a list of `(insertion tag, message)` pairs; popping extracts the entry
minimal in the lexicographic `(sent_timestamp, tag)` order. -/

/-- Whether heap entry `e` is preferred over (popped before) `f`. -/
def heapPrefer (e f : Nat × Message) : Prop :=
  e.2.sent_timestamp < f.2.sent_timestamp ∨
    (e.2.sent_timestamp = f.2.sent_timestamp ∧ e.1 ≤ f.1)

instance (e f : Nat × Message) : Decidable (heapPrefer e f) := by
  unfold heapPrefer
  infer_instance

/-- Pop the minimal entry from the heap, returning it and the remaining
entries. -/
def heapPopMin : List (Nat × Message) →
    Option ((Nat × Message) × List (Nat × Message))
  | [] => none
  | e :: rest =>
      match heapPopMin rest with
      | none => some (e, [])
      | some (b, r) => if heapPrefer e b then some (e, rest) else some (b, e :: r)

theorem heapPopMin_none {l : List (Nat × Message)}
    (h : heapPopMin l = none) : l = [] := by
  cases l with
  | nil => rfl
  | cons a rest =>
      rw [heapPopMin] at h
      cases hr : heapPopMin rest with
      | none => rw [hr] at h; simp at h
      | some p =>
          obtain ⟨b, r'⟩ := p
          rw [hr] at h
          by_cases hp : heapPrefer a b <;> simp [hp] at h

theorem heapPopMin_length {l : List (Nat × Message)} {e r}
    (h : heapPopMin l = some (e, r)) : r.length + 1 = l.length := by
  induction l generalizing e r with
  | nil => simp [heapPopMin] at h
  | cons a rest ih =>
      rw [heapPopMin] at h
      cases hr : heapPopMin rest with
      | none =>
          rw [hr] at h
          have hrest : rest = [] := heapPopMin_none hr
          simp at h
          subst hrest
          simp [← h.2]
      | some p =>
          obtain ⟨b, r'⟩ := p
          rw [hr] at h
          by_cases hp : heapPrefer a b
          · simp [hp] at h
            simp [← h.2]
          · simp [hp] at h
            have := ih (e := b) (r := r') hr
            simp [← h.2]
            omega

/-- `sanafe::schedule_init_timing_priority` (`src/schedule.cpp` lines
403-428): pop the front message of every non-empty per-core queue, set
its `sent_timestamp` to its `generation_delay`, and push it into the
priority queue (insertion tags in core order, starting from `tag`).
Returns the heap entries, the remaining queues and the next free tag. -/
def schedule_init_timing_priority :
    List (List Message) → Nat →
      List (Nat × Message) × List (List Message) × Nat
  | [], tag => ([], [], tag)
  | [] :: qs, tag =>
      let (p, qs', tag') := schedule_init_timing_priority qs tag
      (p, [] :: qs', tag')
  | (m :: rest) :: qs, tag =>
      let (p, qs', tag') := schedule_init_timing_priority qs (tag + 1)
      ((tag, { m with sent_timestamp := m.generation_delay }) :: p,
        rest :: qs', tag')

/-- The scheduler's loop state: the priority queue, the tag counter, the
remaining per-core send queues (`messages_sent_per_core`), the NoC
bookkeeping, the messages already scheduled (with their final field
values), and the running `last_timestamp`. -/
structure SchedState where
  priority : List (Nat × Message)
  counter : Nat
  queues : List (List Message)
  noc : NocInfo
  done : List Message
  last_timestamp : ℚ

/-- The non-placeholder body of the scheduler loop
(`src/schedule.cpp` lines 85-130): congestion back-pressure on
`sent_timestamp` (lines 96-104), insertion into the destination's
receive queue and the NoC counts (lines 109-114; the C++ queue stores a
reference to the message, so the stored entry carries the message's
final timestamps), and the received/processed timestamp computation
(lines 116-129).  Returns the message with its final fields and the
updated NoC state. -/
def schedule_handle (sched : Scheduler) (m : Message) (noc1 : NocInfo) :
    Message × NocInfo :=
  let dest := m.dest_core_id
  let messages_along_route := schedule_calculate_messages_along_route m noc1
  let path_capacity : ℚ := (((m.hops + 1) * sched.buffer_size : Nat) : ℚ)
  let sent' :=
    if messages_along_route > path_capacity then
      m.sent_timestamp + (messages_along_route - path_capacity) *
        noc1.mean_in_flight_receive_delay
    else m.sent_timestamp
  let noc2 := schedule_update_noc_message_counts m noc1 true
  let network_delay := messages_along_route *
    noc2.mean_in_flight_receive_delay / ((m.hops : ℚ) + 1)
  let earliest_received_time := sent' + max m.network_delay network_delay
  let cfr := noc2.core_finished_receiving.getD dest 0
  let received := max cfr earliest_received_time
  let cfr' := max (cfr + m.receive_delay) (earliest_received_time + m.receive_delay)
  let mFinal := { m with
    sent_timestamp := sent'
    in_noc := true
    received_timestamp := received
    processed_timestamp := cfr' }
  let noc3 := { noc2 with
    messages_received := noc2.messages_received.set dest
      (noc2.messages_received.getD dest [] ++ [mFinal])
    core_finished_receiving := noc2.core_finished_receiving.set dest cfr' }
  (mFinal, noc3)

/-- One iteration of the `while (!priority.empty())` loop of
`sanafe::schedule_messages` (`src/schedule.cpp` lines 71-164), given the
popped minimal entry `m` and the remaining heap `rest`: advance
`last_timestamp`, age out delivered messages from the NoC, run the
non-placeholder body, and schedule the source core's next message (if
any) `generation_delay` after this message's (possibly back-pressured)
send time (lines 132-145). -/
def schedule_step (sched : Scheduler) (s : SchedState) (m : Message)
    (rest : List (Nat × Message)) : SchedState :=
  let last1 := max s.last_timestamp m.sent_timestamp
  let noc1 := schedule_update_noc m.sent_timestamp s.noc
  let m2 := if m.placeholder then m else (schedule_handle sched m noc1).1
  let noc2 := if m.placeholder then noc1 else (schedule_handle sched m noc1).2
  let last2 :=
    if m.placeholder then last1 else max last1 m2.processed_timestamp
  let src := m2.src_core_id
  match s.queues.getD src [] with
  | [] =>
      { priority := rest, counter := s.counter, queues := s.queues
        noc := noc2, done := s.done ++ [m2], last_timestamp := last2 }
  | next :: qrest =>
      let next' := { next with
        sent_timestamp := m2.sent_timestamp + next.generation_delay }
      { priority := rest ++ [(s.counter, next')]
        counter := s.counter + 1
        queues := s.queues.set src qrest
        noc := noc2
        done := s.done ++ [m2]
        last_timestamp := max last2 next'.sent_timestamp }

/-- Total number of messages still waiting in the per-core send queues. -/
def queuesTotal (qs : List (List Message)) : Nat := (qs.map List.length).sum

theorem queuesTotal_set {qs : List (List Message)} {i : Nat} {x : Message}
    {xs : List Message} (h : qs.getD i [] = x :: xs) :
    queuesTotal (qs.set i xs) + 1 = queuesTotal qs := by
  induction qs generalizing i with
  | nil => simp [List.getD] at h
  | cons q qs ih =>
      cases i with
      | zero =>
          simp [List.getD] at h
          simp [queuesTotal, h]
          omega
      | succ j =>
          have := ih (i := j) (by simpa [List.getD] using h)
          simp only [List.set, queuesTotal, List.map, List.sum_cons] at *
          omega

theorem queuesTotal_getD_cons {qs : List (List Message)} {i : Nat} {x : Message}
    {xs : List Message} (h : qs.getD i [] = x :: xs) :
    1 ≤ queuesTotal qs := by
  have := queuesTotal_set h
  omega

/-- The loop measure: heap entries plus queued messages. -/
def schedMeasure (s : SchedState) : Nat :=
  s.priority.length + queuesTotal s.queues

theorem schedule_step_measure (sched : Scheduler) (s : SchedState)
    (m : Message) (rest : List (Nat × Message)) {t : Nat}
    (h : heapPopMin s.priority = some ((t, m), rest)) :
    schedMeasure (schedule_step sched s m rest) < schedMeasure s := by
  have hlen := heapPopMin_length h
  unfold schedule_step
  simp only [schedMeasure]
  split
  · dsimp only
    omega
  · rename_i next qrest heq
    have hset := queuesTotal_set heq
    dsimp only
    simp only [List.length_append, List.length_cons, List.length_nil]
    omega

/-- The `while (!priority.empty())` loop of `sanafe::schedule_messages`:
pop and handle the earliest pending message until the priority queue is
empty.  The loop is fuelled; since `schedMeasure` strictly decreases at
every iteration (`schedule_step_measure`), fuel `schedMeasure s` always
suffices, which is what `schedule_messages` supplies. -/
def schedule_run (sched : Scheduler) : Nat → SchedState → SchedState
  | 0, s => s
  | fuel + 1, s =>
      match heapPopMin s.priority with
      | none => s
      | some ((_, m), rest) =>
          schedule_run sched fuel (schedule_step sched s m rest)

/-- `sanafe::schedule_messages` (`src/schedule.cpp` lines 33-168).
Takes the vector of per-core message lists and the scheduler
configuration; copies the messages into `core_count` per-core send
queues (lines 48-56); initializes the NoC state (lines 41-59) and the
priority queue (line 61); runs the scheduler loop; and returns the
final `last_timestamp` together with the list of messages the loop
scheduled (each with its final timestamp fields — in the C++ these are
written back through references into the caller's lists). -/
def schedule_messages (messages : List (List Message)) (sched : Scheduler) :
    ℚ × List Message :=
  let messages_sent_per_core :=
    (List.range sched.core_count).map (fun i => messages.getD i [])
  let init := schedule_init_timing_priority messages_sent_per_core 0
  let noc : NocInfo :=
    { message_density := fun _ => 0
      messages_in_noc := 0
      mean_in_flight_receive_delay := 0
      messages_received := List.replicate sched.core_count []
      core_finished_receiving := List.replicate sched.core_count 0 }
  let start : SchedState :=
    { priority := init.1, counter := init.2.2, queues := init.2.1, noc := noc
      done := [], last_timestamp := 0 }
  let final := schedule_run sched (schedMeasure start) start
  (final.last_timestamp, final.done)

/-! ## Claim C1: link densities added along a route

The claim (and the code's own comment, `src/schedule.cpp` lines
180-183) say one admitted message adds `1/(hops+2)` to each of `hops+2`
links — including the destination intra-tile in-link
`ndirections + dest_core_offset` — for a total of exactly `1`.  The
traversal in `schedule_update_noc_message_counts` actually touches only
`hops + 1` entries (one per tile of the route: the source intra-tile
out-link, then for each hop the incoming direction link at the hop's
destination tile) and never touches `ndirections + dest_core_offset`,
so the total added is `(hops+1)/(hops+2)`. -/

/-- A message on a 2×1 mesh from tile (0,0), core offset 0, to tile
(1,0), core offset 1: one hop east. -/
def msgC1 : Message :=
  { hops := 1, src_x := 0, src_y := 0, dest_x := 1, dest_y := 0
    src_core_offset := 0, dest_core_offset := 1
    src_core_id := 0, dest_core_id := 2, placeholder := false }

/-- An empty NoC on the 2×1 mesh with 2 cores per tile. -/
def nocC1 : NocInfo :=
  { message_density := fun _ => 0, messages_in_noc := 0
    mean_in_flight_receive_delay := 0
    messages_received := [[], [], [], []]
    core_finished_receiving := [0, 0, 0, 0] }

/-- Total density over the whole 2×1 mesh's link vector
(`noc_width · noc_height · (ndirections + max_cores_per_tile)` =
`2 · 1 · 6` entries). -/
def densityTotalC1 (d : Int × Int × Int → ℚ) : ℚ :=
  (([0, 1] : List Int).map (fun x =>
    (([0, 1, 2, 3, 4, 5] : List Int).map (fun l => d (x, 0, l))).sum)).sum

/-- **C1** (code bug, witnessed): admitting `msgC1` (1 hop, so
`1/(hops+2) = 1/3` per link) to the empty NoC raises the total density
over the whole link vector to `2/3`, not `1`: only the `hops+1 = 2`
links `(0,0,ndirections+0)` and `(1,0,east)` are incremented, and the
destination intra-tile in-link `(1,0,ndirections+dest_core_offset)`
stays at `0`, contradicting the claim (and the code's own comment that
the densities added along the path sum to one).  Removing the message
again does subtract the same amounts: the total returns to `0`. -/
theorem C1_density_update_adds_hops_plus_one_links :
    densityTotalC1 ((schedule_update_noc_message_counts msgC1 nocC1
        true).message_density) = 2/3 ∧
    densityTotalC1 ((schedule_update_noc_message_counts msgC1 nocC1
        true).message_density) ≠ 1 ∧
    (schedule_update_noc_message_counts msgC1 nocC1
        true).message_density (1, 0, ndirections + 1) = 0 ∧
    densityTotalC1 ((schedule_update_noc_message_counts msgC1
        (schedule_update_noc_message_counts msgC1 nocC1 true)
        false).message_density) = 0 := by
  norm_num [densityTotalC1, schedule_update_noc_message_counts, route_links,
    coordRange, coordAsc, coordDesc, msgC1, nocC1, north, east, south, west,
    ndirections]

/-! ## Claim C6: congestion back-pressure on `sent_timestamp` -/

/-- **C6** (confirmed): for every non-placeholder message popped from
the priority queue, the loop body increases its `sent_timestamp` by
exactly `(route_density − (hops+1)·buffer_size) ·
mean_in_flight_receive_delay` when the summed route density exceeds
`(hops+1)·buffer_size`, and leaves it unchanged otherwise (the route
density and the mean are those after aging out delivered messages at
pop time, `src/schedule.cpp` lines 79, 96-104); the message is recorded
with exactly that send timestamp. -/
theorem C6_congestion_backpressure (sched : Scheduler) (s : SchedState)
    (m : Message) (t : Nat) (rest : List (Nat × Message))
    (hpop : heapPopMin s.priority = some ((t, m), rest))
    (hph : m.placeholder = false) :
    (schedule_step sched s m rest).done =
      s.done ++ [(schedule_handle sched m
        (schedule_update_noc m.sent_timestamp s.noc)).1] ∧
    ((schedule_handle sched m
        (schedule_update_noc m.sent_timestamp s.noc)).1).sent_timestamp =
      m.sent_timestamp +
        (if schedule_calculate_messages_along_route m
              (schedule_update_noc m.sent_timestamp s.noc) >
            (((m.hops + 1) * sched.buffer_size : Nat) : ℚ) then
          (schedule_calculate_messages_along_route m
              (schedule_update_noc m.sent_timestamp s.noc) -
            (((m.hops + 1) * sched.buffer_size : Nat) : ℚ)) *
            (schedule_update_noc m.sent_timestamp
              s.noc).mean_in_flight_receive_delay
        else 0) := by
  constructor
  · unfold schedule_step
    rw [hph]
    simp only [Bool.false_eq_true, if_false]
    split <;> rfl
  · unfold schedule_handle
    dsimp only
    split <;> rename_i hcong
    · rfl
    · exact (add_zero _).symm

/-- Scheduler configuration for the C6 witness: a 1×1 mesh with one
core and `buffer_size` 1. -/
def schedC6 : Scheduler :=
  { noc_width := 1, noc_height := 1, core_count := 1
    max_cores_per_tile := 1, buffer_size := 1 }

/-- A non-placeholder message already timestamped for sending. -/
def msgC6 : Message :=
  { generation_delay := 2, receive_delay := 1, sent_timestamp := 2
    hops := 0, src_core_id := 0, dest_core_id := 0, placeholder := false }

/-- A scheduler state whose priority queue holds exactly `msgC6`. -/
def stC6 : SchedState :=
  { priority := [(0, msgC6)], counter := 1, queues := [[]]
    noc := { message_density := fun _ => 0, messages_in_noc := 0
             mean_in_flight_receive_delay := 0
             messages_received := [[]], core_finished_receiving := [0] }
    done := [], last_timestamp := 0 }

theorem C6_congestion_backpressure_witness :
    (schedule_step schedC6 stC6 msgC6 []).done =
      stC6.done ++ [(schedule_handle schedC6 msgC6
        (schedule_update_noc msgC6.sent_timestamp stC6.noc)).1] ∧
    ((schedule_handle schedC6 msgC6
        (schedule_update_noc msgC6.sent_timestamp stC6.noc)).1).sent_timestamp =
      msgC6.sent_timestamp +
        (if schedule_calculate_messages_along_route msgC6
              (schedule_update_noc msgC6.sent_timestamp stC6.noc) >
            (((msgC6.hops + 1) * schedC6.buffer_size : Nat) : ℚ) then
          (schedule_calculate_messages_along_route msgC6
              (schedule_update_noc msgC6.sent_timestamp stC6.noc) -
            (((msgC6.hops + 1) * schedC6.buffer_size : Nat) : ℚ)) *
            (schedule_update_noc msgC6.sent_timestamp
              stC6.noc).mean_in_flight_receive_delay
        else 0) :=
  C6_congestion_backpressure schedC6 stC6 msgC6 0 [] (by rfl) (by rfl)

/-! ## Claim C2: the value returned by `schedule_messages`

The claim says the returned total timestep latency is
`max(processed_timestamp)` over non-placeholder messages (falling back
to `max(sent_timestamp)` only when every message is a placeholder), and
that in particular a placeholder's `sent_timestamp` never determines
the result in a mixed run.  But `last_timestamp` is advanced with
`m.sent_timestamp` for *every* popped message (`src/schedule.cpp` line
76), placeholders included, so a placeholder with a large generation
delay can dominate every non-placeholder's `processed_timestamp`. -/

/-- A placeholder message on core 0 carrying 100 time units of neuron
processing. -/
def pC2 : Message :=
  { generation_delay := 100, src_core_id := 0, placeholder := true }

/-- A real message from core 1 to core 0, delivered almost
instantly. -/
def rC2 : Message :=
  { generation_delay := 1, src_core_id := 1, dest_core_id := 0
    placeholder := false }

/-- A 1×1 mesh with two cores. -/
def schedC2 : Scheduler :=
  { noc_width := 1, noc_height := 1, core_count := 2
    max_cores_per_tile := 2, buffer_size := 1 }

/-- **C2** (counterexample): on the mixed input `[[pC2], [rC2]]` the
scheduler returns `100` — the placeholder's `sent_timestamp` — while
the maximum `processed_timestamp` over the non-placeholder messages is
`1`.  So the returned latency is *not* `max(processed_timestamp)` over
non-placeholder messages, and a placeholder's `sent_timestamp` does
determine the result of a mixed run. -/
theorem C2_mixed_run_counterexample :
    (schedule_messages [[pC2], [rC2]] schedC2).1 = 100 ∧
    ((schedule_messages [[pC2], [rC2]] schedC2).2.filter
        (fun m => !m.placeholder)).map Message.processed_timestamp = [1] := by
  norm_num [schedule_messages, schedule_init_timing_priority, schedMeasure,
    queuesTotal, schedule_run, heapPopMin, heapPrefer, schedule_step,
    schedule_handle, schedule_update_noc, schedule_update_noc_go,
    schedule_update_noc_queue, schedule_update_noc_message_counts,
    schedule_calculate_messages_along_route, route_links, coordRange,
    coordAsc, coordDesc, north, east, south, west, ndirections,
    pC2, rC2, schedC2, List.getD]

/-! ## NoC bookkeeping invariants

The rolling mean `mean_in_flight_receive_delay` is, exactly (in ℚ), the
average `receive_delay` of the messages currently in flight: insertion
(`mean += (r − mean)/(n+1)`) and removal (`mean += (mean − r)/(n−1)`,
or `0` at `n ≤ 1`) are exact inverse updates of `Σ/n`.  The invariants
below make this precise and yield `0 ≤ mean`, which the claims C2 and
C7 about timestamp monotonicity depend on. -/

/-- Sum of the receive delays of a receive queue. -/
def qSum (q : List Message) : ℚ := (q.map Message.receive_delay).sum

/-- Number of in-flight messages across all receive queues. -/
def flightLen (qs : List (List Message)) : Nat := (qs.map List.length).sum

/-- Sum of receive delays across all receive queues. -/
def flightSum (qs : List (List Message)) : ℚ := (qs.map qSum).sum

/-- Every member of an in-flight queue is flagged `in_noc` and has a
non-negative receive delay. -/
def goodFlight (q : List Message) : Prop :=
  ∀ m ∈ q, m.in_noc = true ∧ 0 ≤ m.receive_delay

/-- The scheduler's NoC counter invariants. -/
structure NocInv (noc : NocInfo) : Prop where
  count_eq : noc.messages_in_noc = (flightLen noc.messages_received : Int)
  mean_eq : noc.mean_in_flight_receive_delay *
    (flightLen noc.messages_received : ℚ) = flightSum noc.messages_received
  zero_mean : flightLen noc.messages_received = 0 →
    noc.mean_in_flight_receive_delay = 0
  members : ∀ q ∈ noc.messages_received, goodFlight q

theorem qSum_nonneg {q : List Message} (h : goodFlight q) : 0 ≤ qSum q := by
  induction q with
  | nil => simp [qSum]
  | cons m rest ih =>
      have hm := h m (by simp)
      have hrest : goodFlight rest := fun x hx => h x (by simp [hx])
      have := ih hrest
      simp only [qSum, List.map_cons, List.sum_cons] at *
      exact add_nonneg hm.2 this

theorem flightSum_nonneg {qs : List (List Message)}
    (h : ∀ q ∈ qs, goodFlight q) : 0 ≤ flightSum qs := by
  induction qs with
  | nil => simp [flightSum]
  | cons q rest ih =>
      have hq := qSum_nonneg (h q (by simp))
      have := ih (fun x hx => h x (by simp [hx]))
      simp only [flightSum, List.map_cons, List.sum_cons] at *
      exact add_nonneg hq this

theorem NocInv.mean_nonneg {noc : NocInfo} (h : NocInv noc) :
    0 ≤ noc.mean_in_flight_receive_delay := by
  rcases Nat.eq_zero_or_pos (flightLen noc.messages_received) with h0 | hpos
  · rw [h.zero_mean h0]
  · have hsum : 0 ≤ flightSum noc.messages_received :=
      flightSum_nonneg h.members
    have hn : (0 : ℚ) < (flightLen noc.messages_received : ℚ) := by
      exact_mod_cast hpos
    nlinarith [h.mean_eq]

/-! ## Folding maxima -/

/-- The running `last_timestamp` is a left fold of `max`; the lemmas
below let one rotate and absorb contributions into such folds. -/
def foldMax (g : Message → ℚ) (l : List Message) (a : ℚ) : ℚ :=
  l.foldl (fun acc x => max acc (g x)) a

theorem foldMax_init (g : Message → ℚ) (l : List Message) (a c : ℚ) :
    foldMax g l (max a c) = max (foldMax g l a) c := by
  induction l generalizing a with
  | nil => rfl
  | cons x xs ih =>
      simp only [foldMax, List.foldl_cons] at *
      rw [sup_right_comm a c (g x), ih]

theorem init_le_foldMax (g : Message → ℚ) (l : List Message) (a : ℚ) :
    a ≤ foldMax g l a := by
  induction l generalizing a with
  | nil => simp [foldMax]
  | cons y ys ih =>
      simp only [foldMax, List.foldl_cons]
      exact le_trans (le_max_left a (g y)) (ih (max a (g y)))

theorem le_foldMax_of_mem {g : Message → ℚ} {l : List Message} {x : Message}
    (hx : x ∈ l) (a : ℚ) : g x ≤ foldMax g l a := by
  induction l generalizing a with
  | nil => simp at hx
  | cons y ys ih =>
      rcases List.mem_cons.mp hx with rfl | hmem
      · simp only [foldMax, List.foldl_cons]
        exact le_trans (le_max_right a (g x)) (init_le_foldMax g ys _)
      · exact ih hmem _

theorem foldMax_absorb {g : Message → ℚ} {l : List Message} {a c : ℚ}
    (h : ∃ x ∈ l, c ≤ g x) : foldMax g l (max a c) = foldMax g l a := by
  obtain ⟨x, hx, hcx⟩ := h
  rw [foldMax_init]
  exact max_eq_left ((hcx.trans (le_foldMax_of_mem hx a)))

theorem update_counts_received (m : Message) (noc : NocInfo) (b : Bool) :
    (schedule_update_noc_message_counts m noc b).messages_received =
      noc.messages_received := by
  unfold schedule_update_noc_message_counts
  split <;> rfl

theorem update_counts_cfr (m : Message) (noc : NocInfo) (b : Bool) :
    (schedule_update_noc_message_counts m noc b).core_finished_receiving =
      noc.core_finished_receiving := by
  unfold schedule_update_noc_message_counts
  split <;> rfl

theorem update_counts_true_count (m : Message) (noc : NocInfo) :
    (schedule_update_noc_message_counts m noc true).messages_in_noc =
      noc.messages_in_noc + 1 := by
  simp [schedule_update_noc_message_counts]

theorem update_counts_true_mean (m : Message) (noc : NocInfo) :
    (schedule_update_noc_message_counts m noc true).mean_in_flight_receive_delay =
      noc.mean_in_flight_receive_delay +
        (m.receive_delay - noc.mean_in_flight_receive_delay) /
          ((noc.messages_in_noc : ℚ) + 1) := by
  simp [schedule_update_noc_message_counts]

theorem update_counts_false_count (m : Message) (noc : NocInfo) :
    (schedule_update_noc_message_counts m noc false).messages_in_noc =
      noc.messages_in_noc - 1 := by
  simp [schedule_update_noc_message_counts]

theorem update_counts_false_mean (m : Message) (noc : NocInfo) :
    (schedule_update_noc_message_counts m noc false).mean_in_flight_receive_delay =
      if noc.messages_in_noc > 1 then
        noc.mean_in_flight_receive_delay +
          (noc.mean_in_flight_receive_delay - m.receive_delay) /
            ((noc.messages_in_noc : ℚ) - 1)
      else 0 := by
  simp [schedule_update_noc_message_counts]

/-- The removal pass over one receive queue (`schedule_update_noc`'s
inner loop) keeps the counter bookkeeping exact.  `outLen`/`outSum`
stand for the in-flight messages in all other queues (already swept or
still to sweep). -/
theorem update_queue_spec (t : ℚ) (q : List Message) (noc : NocInfo)
    (outLen : Nat) (outSum : ℚ)
    (hcount : noc.messages_in_noc = ((q.length + outLen : Nat) : Int))
    (hmean : noc.mean_in_flight_receive_delay * ((q.length + outLen : Nat) : ℚ)
      = qSum q + outSum)
    (hzero : q.length + outLen = 0 → noc.mean_in_flight_receive_delay = 0)
    (hout0 : outLen = 0 → outSum = 0)
    (hq : goodFlight q) :
    (schedule_update_noc_queue t q noc).2.messages_in_noc
      = (((schedule_update_noc_queue t q noc).1.length + outLen : Nat) : Int) ∧
    (schedule_update_noc_queue t q noc).2.mean_in_flight_receive_delay *
      (((schedule_update_noc_queue t q noc).1.length + outLen : Nat) : ℚ)
      = qSum (schedule_update_noc_queue t q noc).1 + outSum ∧
    ((schedule_update_noc_queue t q noc).1.length + outLen = 0 →
      (schedule_update_noc_queue t q noc).2.mean_in_flight_receive_delay = 0) ∧
    goodFlight (schedule_update_noc_queue t q noc).1 ∧
    (schedule_update_noc_queue t q noc).2.messages_received =
      noc.messages_received ∧
    (schedule_update_noc_queue t q noc).2.core_finished_receiving =
      noc.core_finished_receiving := by
  induction q generalizing noc outLen outSum with
  | nil =>
      simp only [schedule_update_noc_queue]
      refine ⟨hcount, hmean, hzero, ?_, by trivial, by trivial⟩
      intro m hm
      simp at hm
  | cons m rest ih =>
      rw [schedule_update_noc_queue]
      have hqsum : qSum (m :: rest) = m.receive_delay + qSum rest := by
        simp [qSum]
      have hrestq : goodFlight rest := fun x hx => hq x (by simp [hx])
      split
      · -- message removed from the NoC
        set noc' := schedule_update_noc_message_counts
          { m with in_noc := false } noc false with hnoc'
        have hcount' : noc'.messages_in_noc =
            ((rest.length + outLen : Nat) : Int) := by
          rw [hnoc', update_counts_false_count, hcount]
          push_cast [List.length_cons]
          ring
        rcases Nat.eq_zero_or_pos (rest.length + outLen) with hz | hpos
        · -- the removed message was the only one in flight
          have hrl : rest.length = 0 := by omega
          have hol : outLen = 0 := by omega
          have hrest : rest = [] := List.length_eq_zero.mp hrl
          have hmean' : noc'.mean_in_flight_receive_delay = 0 := by
            rw [hnoc', update_counts_false_mean]
            have hnot : ¬ noc.messages_in_noc > 1 := by
              rw [hcount]
              push_cast [List.length_cons]
              omega
            simp [hnot]
          subst hrest
          refine ih noc' outLen outSum hcount' ?_ ?_ hout0 hrestq
          · rw [hmean']
            simp [qSum, hout0 hol]
          · intro _
            exact hmean'
        · -- at least one other message stays in flight
          have hgt : noc.messages_in_noc > 1 := by
            rw [hcount]
            push_cast [List.length_cons]
            omega
          have hd0 : ((rest.length + outLen : Nat) : ℚ) ≠ 0 := by
            have : (0 : ℚ) < ((rest.length + outLen : Nat) : ℚ) := by
              exact_mod_cast hpos
            exact ne_of_gt this
          have hmean2 : noc.mean_in_flight_receive_delay *
              (((rest.length + outLen : Nat) : ℚ) + 1)
              = m.receive_delay + (qSum rest + outSum) := by
            have hcast2 : (((m :: rest).length + outLen : Nat) : ℚ) =
                ((rest.length + outLen : Nat) : ℚ) + 1 := by
              push_cast [List.length_cons]
              ring
            rw [← hcast2, hmean, hqsum]
            ring
          have hmean' : noc'.mean_in_flight_receive_delay *
              ((rest.length + outLen : Nat) : ℚ) = qSum rest + outSum := by
            rw [hnoc', update_counts_false_mean, if_pos hgt]
            have hcastden : ((noc.messages_in_noc : ℚ)) - 1 =
                ((rest.length + outLen : Nat) : ℚ) := by
              rw [hcount]
              push_cast [List.length_cons]
              ring
            rw [hcastden]
            have hmr : ({ m with in_noc := false } : Message).receive_delay =
                m.receive_delay := rfl
            rw [hmr]
            have key : ∀ d : ℚ, d ≠ 0 →
                (noc.mean_in_flight_receive_delay +
                  (noc.mean_in_flight_receive_delay - m.receive_delay) / d) * d
                = noc.mean_in_flight_receive_delay * (d + 1) -
                    m.receive_delay := by
              intro d hd
              field_simp
              ring
            rw [key _ hd0, hmean2]
            ring
          refine ih noc' outLen outSum hcount' hmean' ?_ hout0 hrestq
          intro hcontra
          omega
      · -- message stays in the NoC
        rcases hrec : schedule_update_noc_queue t rest noc with ⟨q', noc2⟩
        have hm := hq m (by simp)
        have := ih noc (outLen + 1)
          (outSum + m.receive_delay)
          (by rw [hcount]; push_cast [List.length_cons]; ring)
          (by
            have hcast2 : (((rest.length + (outLen + 1) : Nat)) : ℚ) =
                (((m :: rest).length + outLen : Nat) : ℚ) := by
              push_cast [List.length_cons]
              ring
            rw [hcast2, hmean, hqsum]
            ring)
          (by intro hcontra; omega)
          (by intro hcontra; omega)
          hrestq
        rw [hrec] at this
        obtain ⟨h1, h2, h3, h4, h5, h6⟩ := this
        try dsimp only at h1 h2 h3 h4 h5 h6
        simp only [hrec]
        try dsimp only
        refine ⟨?_, ?_, ?_, ?_, h5, h6⟩
        · rw [h1]
          push_cast [List.length_cons]
          ring
        · rw [show ((((m :: q').length + outLen : Nat)) : ℚ)
            = (((q'.length + (outLen + 1) : Nat)) : ℚ) from by
              push_cast [List.length_cons]; ring]
          rw [h2]
          simp only [qSum, List.map_cons, List.sum_cons]
          ring
        · intro hcontra
          simp [List.length_cons] at hcontra
        · intro x hx
          rcases List.mem_cons.mp hx with rfl | hmem
          · exact hm
          · exact h4 x hmem

theorem qSum_eq_zero_of_length {q : List Message} (h : q.length = 0) :
    qSum q = 0 := by
  rw [List.length_eq_zero.mp h]
  simp [qSum]

theorem flightLen_cons (q : List Message) (qs : List (List Message)) :
    flightLen (q :: qs) = q.length + flightLen qs := by
  simp [flightLen]

theorem flightSum_cons (q : List Message) (qs : List (List Message)) :
    flightSum (q :: qs) = qSum q + flightSum qs := by
  simp [flightSum]

theorem flightSum_eq_zero_of_len {qs : List (List Message)}
    (h : flightLen qs = 0) : flightSum qs = 0 := by
  induction qs with
  | nil => simp [flightSum]
  | cons q rest ih =>
      rw [flightLen_cons] at h
      rw [flightSum_cons, qSum_eq_zero_of_length (by omega),
        ih (by omega), add_zero]

/-- The whole removal sweep (`schedule_update_noc_go`) keeps the
counter bookkeeping exact. -/
theorem update_go_spec (t : ℚ) (qs : List (List Message)) (noc : NocInfo)
    (outLen : Nat) (outSum : ℚ)
    (hcount : noc.messages_in_noc = ((flightLen qs + outLen : Nat) : Int))
    (hmean : noc.mean_in_flight_receive_delay *
      ((flightLen qs + outLen : Nat) : ℚ) = flightSum qs + outSum)
    (hzero : flightLen qs + outLen = 0 →
      noc.mean_in_flight_receive_delay = 0)
    (hout0 : outLen = 0 → outSum = 0)
    (hqs : ∀ q ∈ qs, goodFlight q) :
    (schedule_update_noc_go t qs noc).2.messages_in_noc =
      ((flightLen (schedule_update_noc_go t qs noc).1 + outLen : Nat) : Int) ∧
    (schedule_update_noc_go t qs noc).2.mean_in_flight_receive_delay *
      ((flightLen (schedule_update_noc_go t qs noc).1 + outLen : Nat) : ℚ)
      = flightSum (schedule_update_noc_go t qs noc).1 + outSum ∧
    (flightLen (schedule_update_noc_go t qs noc).1 + outLen = 0 →
      (schedule_update_noc_go t qs noc).2.mean_in_flight_receive_delay = 0) ∧
    (∀ q ∈ (schedule_update_noc_go t qs noc).1, goodFlight q) ∧
    (schedule_update_noc_go t qs noc).2.messages_received =
      noc.messages_received ∧
    (schedule_update_noc_go t qs noc).2.core_finished_receiving =
      noc.core_finished_receiving ∧
    (schedule_update_noc_go t qs noc).1.length = qs.length := by
  induction qs generalizing noc outLen outSum with
  | nil =>
      simp only [schedule_update_noc_go]
      exact ⟨hcount, hmean, hzero, by intro q hq; simp at hq,
        by trivial, by trivial, by trivial⟩
  | cons q qs ih =>
      rw [schedule_update_noc_go]
      rcases hq1 : schedule_update_noc_queue t q noc with ⟨q', noc'⟩
      have hspec := update_queue_spec t q noc (flightLen qs + outLen)
        (flightSum qs + outSum)
        (by rw [hcount, flightLen_cons]; push_cast; ring)
        (by rw [show ((q.length + (flightLen qs + outLen) : Nat) : ℚ)
              = ((flightLen (q :: qs) + outLen : Nat) : ℚ) from by
                rw [flightLen_cons]; push_cast; ring]
            rw [hmean, flightSum_cons]
            ring)
        (by intro hc; exact hzero (by rw [flightLen_cons]; omega))
        (by intro hc
            have hl : flightLen qs = 0 := by omega
            have ho : outLen = 0 := by omega
            rw [flightSum_eq_zero_of_len hl, hout0 ho, add_zero])
        (hqs q (by simp))
      rw [hq1] at hspec
      try dsimp only at hspec
      obtain ⟨g1, g2, g3, g4, g5, g6⟩ := hspec
      rcases hq2 : schedule_update_noc_go t qs noc' with ⟨qs', noc''⟩
      have hspec2 := ih noc' (q'.length + outLen)
        (qSum q' + outSum)
        (by rw [g1]; push_cast; ring)
        (by rw [show ((flightLen qs + (q'.length + outLen) : Nat) : ℚ)
              = ((q'.length + (flightLen qs + outLen) : Nat) : ℚ) from by
                push_cast; ring]
            rw [g2]; ring)
        (by intro hc; exact g3 (by omega))
        (by intro hc
            have hl : q'.length = 0 := by omega
            have ho : outLen = 0 := by omega
            rw [qSum_eq_zero_of_length hl, hout0 ho, add_zero])
        (by intro x hx
            have hrcv := (update_counts_received)
            -- members of the remaining queues are unchanged
            exact hqs x (by simp [hx]))
      rw [hq2] at hspec2
      try dsimp only at hspec2
      obtain ⟨k1, k2, k3, k4, k5, k6, k7⟩ := hspec2
      simp only [hq1, hq2]
      try dsimp only
      refine ⟨?_, ?_, ?_, ?_, ?_, ?_, ?_⟩
      · rw [k1, flightLen_cons]
        push_cast
        ring
      · rw [show ((flightLen (q' :: qs') + outLen : Nat) : ℚ)
            = ((flightLen qs' + (q'.length + outLen) : Nat) : ℚ) from by
              rw [flightLen_cons]; push_cast; ring]
        rw [k2, flightSum_cons]
        ring
      · intro hc
        rw [flightLen_cons] at hc
        exact k3 (by omega)
      · intro x hx
        rcases List.mem_cons.mp hx with rfl | hmem
        · exact g4
        · exact k4 x hmem
      · rw [k5, g5]
      · rw [k6, g6]
      · simp [k7]

/-- Aging out delivered messages preserves the NoC invariants and does
not touch `core_finished_receiving` or the number of queues. -/
theorem NocInv_update_noc (t : ℚ) (noc : NocInfo) (h : NocInv noc) :
    NocInv (schedule_update_noc t noc) ∧
    (schedule_update_noc t noc).core_finished_receiving =
      noc.core_finished_receiving ∧
    (schedule_update_noc t noc).messages_received.length =
      noc.messages_received.length := by
  unfold schedule_update_noc
  rcases hgo : schedule_update_noc_go t noc.messages_received noc
    with ⟨qs', noc'⟩
  have hspec := update_go_spec t noc.messages_received noc 0 0
    (by rw [h.count_eq]; push_cast; ring)
    (by rw [show ((flightLen noc.messages_received + 0 : Nat) : ℚ)
          = ((flightLen noc.messages_received : Nat) : ℚ) from by push_cast; ring]
        rw [h.mean_eq]; ring)
    (by intro hc; exact h.zero_mean (by omega))
    (fun _ => rfl)
    h.members
  rw [hgo] at hspec
  try dsimp only at hspec
  obtain ⟨k1, k2, k3, k4, k5, k6, k7⟩ := hspec
  try dsimp only
  refine ⟨⟨?_, ?_, ?_, ?_⟩, k6, ?_⟩
  · show noc'.messages_in_noc = _
    rw [k1]
    push_cast
    ring
  · show noc'.mean_in_flight_receive_delay * _ = _
    rw [show ((flightLen qs' : Nat) : ℚ)
        = ((flightLen qs' + 0 : Nat) : ℚ) from by push_cast; ring]
    rw [k2]
    ring
  · intro hc
    try dsimp only at hc
    exact k3 (by omega)
  · exact k4
  · show qs'.length = _
    exact k7

theorem flightLen_set_append {qs : List (List Message)} {i : Nat} {x : Message}
    (hi : i < qs.length) :
    flightLen (qs.set i (qs.getD i [] ++ [x])) = flightLen qs + 1 := by
  induction qs generalizing i with
  | nil => simp at hi
  | cons q rest ih =>
      cases i with
      | zero => simp [flightLen, List.getD]; ring
      | succ j =>
          have := ih (i := j) (by simpa using hi)
          simp only [List.set, List.getD_cons_succ, flightLen_cons] at *
          omega

theorem flightSum_set_append {qs : List (List Message)} {i : Nat} {x : Message}
    (hi : i < qs.length) :
    flightSum (qs.set i (qs.getD i [] ++ [x])) =
      flightSum qs + x.receive_delay := by
  induction qs generalizing i with
  | nil => simp at hi
  | cons q rest ih =>
      cases i with
      | zero => simp [flightSum, qSum, List.getD]; ring
      | succ j =>
          have := ih (i := j) (by simpa using hi)
          simp only [List.set, List.getD_cons_succ, flightSum_cons] at *
          rw [this]
          ring

theorem members_set_append {qs : List (List Message)} {i : Nat} {x : Message}
    (hqs : ∀ q ∈ qs, goodFlight q) (hx : x.in_noc = true ∧ 0 ≤ x.receive_delay) :
    ∀ q ∈ qs.set i (qs.getD i [] ++ [x]), goodFlight q := by
  intro q hq
  rcases List.mem_or_eq_of_mem_set hq with hmem | rfl
  · exact hqs q hmem
  · intro y hy
    rcases List.mem_append.mp hy with hmem | hmem
    · rcases Nat.lt_or_ge i qs.length with hi | hi
      · exact hqs _ (List.getD_eq_getElem qs [] hi ▸ List.getElem_mem hi) y hmem
      · rw [List.getD_eq_default qs [] hi] at hmem
        simp at hmem
    · simp at hmem
      subst hmem
      exact hx

/-- Fields of the handled message other than its timestamps and
`in_noc` flag are those of the input message. -/
theorem schedule_handle_fields (sched : Scheduler) (m : Message)
    (noc1 : NocInfo) :
    ((schedule_handle sched m noc1).1).placeholder = m.placeholder ∧
    ((schedule_handle sched m noc1).1).src_core_id = m.src_core_id ∧
    ((schedule_handle sched m noc1).1).dest_core_id = m.dest_core_id ∧
    ((schedule_handle sched m noc1).1).generation_delay = m.generation_delay ∧
    ((schedule_handle sched m noc1).1).network_delay = m.network_delay ∧
    ((schedule_handle sched m noc1).1).receive_delay = m.receive_delay ∧
    ((schedule_handle sched m noc1).1).in_noc = true := by
  unfold schedule_handle
  try dsimp only
  exact ⟨rfl, rfl, rfl, rfl, rfl, rfl, rfl⟩

/-- Under non-negative delays and a non-negative rolling mean, the
handled message's timestamps are monotone:
`sent (old) ≤ sent (final) ≤ received ≤ processed`. -/
theorem schedule_handle_mono (sched : Scheduler) (m : Message)
    (noc1 : NocInfo) (hmean : 0 ≤ noc1.mean_in_flight_receive_delay)
    (hnet : 0 ≤ m.network_delay) (hrecv : 0 ≤ m.receive_delay) :
    m.sent_timestamp ≤ ((schedule_handle sched m noc1).1).sent_timestamp ∧
    ((schedule_handle sched m noc1).1).sent_timestamp ≤
      ((schedule_handle sched m noc1).1).received_timestamp ∧
    ((schedule_handle sched m noc1).1).received_timestamp ≤
      ((schedule_handle sched m noc1).1).processed_timestamp := by
  unfold schedule_handle
  try dsimp only
  refine ⟨?_, ?_, ?_⟩
  · split
    · rename_i hcong
      have h1 : (0 : ℚ) ≤ schedule_calculate_messages_along_route m noc1 -
          (((m.hops + 1) * sched.buffer_size : Nat) : ℚ) := by linarith
      have := mul_nonneg h1 hmean
      linarith
    · exact le_refl _
  · refine le_trans ?_ (le_max_right _ _)
    have : (0 : ℚ) ≤ max m.network_delay (schedule_calculate_messages_along_route
        m noc1 * (schedule_update_noc_message_counts m noc1
          true).mean_in_flight_receive_delay / ((m.hops : ℚ) + 1)) :=
      le_trans hnet (le_max_left _ _)
    linarith
  · exact max_le_max (by linarith) (by linarith)

/-- Admitting a message to the NoC (the non-placeholder loop body)
preserves the NoC invariants. -/
theorem NocInv_handle (sched : Scheduler) (m : Message) (noc1 : NocInfo)
    (hinv : NocInv noc1) (hrecv : 0 ≤ m.receive_delay)
    (hd : m.dest_core_id < noc1.messages_received.length) :
    NocInv (schedule_handle sched m noc1).2 ∧
    (schedule_handle sched m noc1).2.messages_received.length =
      noc1.messages_received.length := by
  unfold schedule_handle
  try dsimp only
  have hrcv2 := update_counts_received m noc1 true
  have hcnt := update_counts_true_count m noc1
  have hmean := update_counts_true_mean m noc1
  constructor
  · constructor
    · -- count
      show (schedule_update_noc_message_counts m noc1 true).messages_in_noc = _
      rw [hcnt, hinv.count_eq, hrcv2, flightLen_set_append (hrcv2 ▸ hd)]
      push_cast
      ring
    · -- mean
      show (schedule_update_noc_message_counts m noc1 true).mean_in_flight_receive_delay * _ = _
      rw [hmean, hrcv2, flightLen_set_append (hrcv2 ▸ hd),
        flightSum_set_append (hrcv2 ▸ hd), hinv.count_eq]
      have hden : ((flightLen noc1.messages_received : ℚ) + 1) ≠ 0 := by
        have : (0 : ℚ) ≤ (flightLen noc1.messages_received : ℚ) := by positivity
        linarith
      have key : ∀ mean r n : ℚ, n + 1 ≠ 0 →
          (mean + (r - mean) / (n + 1)) * (n + 1) = mean * n + r := by
        intro mean r n hn
        field_simp
        ring
      try dsimp only
      push_cast
      rw [key _ _ _ (by push_cast at hden ⊢; exact hden)]
      rw [← hinv.mean_eq]
    · -- zero mean, vacuous: at least one message is now in flight
      intro hc
      rw [hrcv2, flightLen_set_append (hrcv2 ▸ hd)] at hc
      omega
    · -- members
      rw [hrcv2]
      exact members_set_append hinv.members ⟨rfl, hrecv⟩
  · show ((schedule_update_noc_message_counts m noc1
        true).messages_received.set _ _).length = _
    rw [List.length_set, hrcv2]

/-! ## Run-level scheduler properties -/

/-- The quantity through which a scheduled message can determine the
returned `last_timestamp`: its final `sent_timestamp` for a
placeholder, its final `processed_timestamp` otherwise. -/
def messageLatency (m : Message) : ℚ :=
  if m.placeholder then m.sent_timestamp else m.processed_timestamp

/-- A well-formed scheduler input message: non-negative delays and an
in-range destination core. -/
def goodMsg (sched : Scheduler) (m : Message) : Prop :=
  0 ≤ m.generation_delay ∧ 0 ≤ m.network_delay ∧ 0 ≤ m.receive_delay ∧
    m.dest_core_id < sched.core_count

/-- Invariant carried through the scheduler main loop. -/
structure SchedInv (sched : Scheduler) (s : SchedState) : Prop where
  noc_inv : NocInv s.noc
  noc_len : s.noc.messages_received.length = sched.core_count
  heap_good : ∀ e ∈ s.priority, goodMsg sched e.2
  queues_good : ∀ q ∈ s.queues, ∀ m ∈ q, goodMsg sched m

theorem heapPopMin_mem {l : List (Nat × Message)} {e r}
    (h : heapPopMin l = some (e, r)) : e ∈ l ∧ ∀ x ∈ r, x ∈ l := by
  induction l generalizing e r with
  | nil => simp [heapPopMin] at h
  | cons a rest ih =>
      rw [heapPopMin] at h
      cases hr : heapPopMin rest with
      | none =>
          rw [hr] at h
          simp at h
          obtain ⟨rfl, rfl⟩ := h
          exact ⟨by simp, by intro x hx; simp at hx⟩
      | some p =>
          obtain ⟨b, r'⟩ := p
          rw [hr] at h
          have hb := ih hr
          by_cases hp : heapPrefer a b <;> simp [hp] at h
          · obtain ⟨rfl, rfl⟩ := h
            exact ⟨by simp, by intro x hx; simp [hx]⟩
          · obtain ⟨rfl, rfl⟩ := h
            refine ⟨by simp [hb.1], ?_⟩
            intro x hx
            rcases List.mem_cons.mp hx with rfl | hmem
            · simp
            · simp [hb.2 x hmem]

/-- One loop iteration preserves the scheduler invariant. -/
theorem SchedInv_step (sched : Scheduler) (s : SchedState) (m : Message)
    (t : Nat) (rest : List (Nat × Message))
    (hpop : heapPopMin s.priority = some ((t, m), rest))
    (hinv : SchedInv sched s) :
    SchedInv sched (schedule_step sched s m rest) := by
  have hmem := heapPopMin_mem hpop
  have hmgood : goodMsg sched m := hinv.heap_good _ hmem.1
  have hrest : ∀ e ∈ rest, goodMsg sched e.2 := fun e he =>
    hinv.heap_good e (hmem.2 e he)
  have hupd := NocInv_update_noc m.sent_timestamp s.noc hinv.noc_inv
  have hlen1 : (schedule_update_noc m.sent_timestamp
      s.noc).messages_received.length = sched.core_count := by
    rw [hupd.2.2, hinv.noc_len]
  have hgood_from_queue : ∀ (idx : Nat) (next : Message)
      (qrest : List Message), s.queues.getD idx [] = next :: qrest →
      (∀ x ∈ next :: qrest, goodMsg sched x) := by
    intro idx next qrest hq x hx
    rcases Nat.lt_or_ge idx s.queues.length with hlt | hge
    · exact hinv.queues_good _
        (List.getD_eq_getElem s.queues [] hlt ▸ List.getElem_mem hlt)
        x (by rw [hq]; exact hx)
    · rw [List.getD_eq_default s.queues [] hge] at hq
      simp at hq
  have hqueues_set : ∀ (idx : Nat) (next : Message) (qrest : List Message),
      s.queues.getD idx [] = next :: qrest →
      ∀ q ∈ s.queues.set idx qrest, ∀ x ∈ q, goodMsg sched x := by
    intro idx next qrest hq q hq' x hx
    rcases List.mem_or_eq_of_mem_set hq' with hmem' | heq
    · exact hinv.queues_good q hmem' x hx
    · subst heq
      exact hgood_from_queue idx next _ hq x (by simp [hx])
  by_cases hph : m.placeholder = true
  · unfold schedule_step
    simp only [hph, if_true]
    split
    · exact ⟨hupd.1, hlen1, hrest, hinv.queues_good⟩
    · rename_i next qrest hq
      refine ⟨hupd.1, hlen1, ?_, hqueues_set _ next qrest hq⟩
      intro e he
      rcases List.mem_append.mp he with hmem' | hmem'
      · exact hrest e hmem'
      · simp at hmem'
        rw [hmem']
        exact hgood_from_queue _ next qrest hq next (by simp)
  · have hph' : m.placeholder = false := by
      simpa using hph
    have hhandle := NocInv_handle sched m
      (schedule_update_noc m.sent_timestamp s.noc) hupd.1 hmgood.2.2.1
      (by rw [hlen1]; exact hmgood.2.2.2)
    unfold schedule_step
    simp only [hph', Bool.false_eq_true, if_false]
    split
    · exact ⟨hhandle.1, by rw [hhandle.2]; exact hlen1, hrest,
        hinv.queues_good⟩
    · rename_i next qrest hq
      refine ⟨hhandle.1, by rw [hhandle.2]; exact hlen1, ?_,
        hqueues_set _ next qrest hq⟩
      intro e he
      rcases List.mem_append.mp he with hmem' | hmem'
      · exact hrest e hmem'
      · simp at hmem'
        rw [hmem']
        exact hgood_from_queue _ next qrest hq next (by simp)

/-- The message appended to `done` by one loop iteration (with its
final field values). -/
def stepMsg (sched : Scheduler) (s : SchedState) (m : Message) : Message :=
  if m.placeholder then m
  else (schedule_handle sched m
    (schedule_update_noc m.sent_timestamp s.noc)).1

/-- The `last_timestamp` as updated by one loop iteration, before the
next queued message (if any) is scheduled. -/
def stepLast (sched : Scheduler) (s : SchedState) (m : Message) : ℚ :=
  if m.placeholder then max s.last_timestamp m.sent_timestamp
  else max (max s.last_timestamp m.sent_timestamp)
    (stepMsg sched s m).processed_timestamp

/-- Characterization of one loop iteration: the popped message (with
final fields) is appended to `done`, and either the source core's queue
is exhausted, or its next message is timestamped and pushed. -/
theorem schedule_step_char (sched : Scheduler) (s : SchedState) (m : Message)
    (rest : List (Nat × Message)) :
    (schedule_step sched s m rest).done = s.done ++ [stepMsg sched s m] ∧
    (((schedule_step sched s m rest).priority = rest ∧
      (schedule_step sched s m rest).last_timestamp = stepLast sched s m) ∨
     (∃ next qrest,
        s.queues.getD (stepMsg sched s m).src_core_id [] = next :: qrest ∧
        (schedule_step sched s m rest).priority =
          rest ++ [(s.counter, { next with sent_timestamp :=
            (stepMsg sched s m).sent_timestamp + next.generation_delay })] ∧
        (schedule_step sched s m rest).last_timestamp =
          max (stepLast sched s m)
            ((stepMsg sched s m).sent_timestamp + next.generation_delay))) := by
  unfold schedule_step stepLast stepMsg
  by_cases hph : m.placeholder = true
  · simp only [hph, if_true]
    split
    · exact ⟨rfl, Or.inl ⟨rfl, rfl⟩⟩
    · rename_i next qrest hq
      exact ⟨rfl, Or.inr ⟨next, qrest, hq, rfl, rfl⟩⟩
  · have hph' : m.placeholder = false := by simpa using hph
    simp only [hph', Bool.false_eq_true, if_false]
    split
    · exact ⟨rfl, Or.inl ⟨rfl, rfl⟩⟩
    · rename_i next qrest hq
      exact ⟨rfl, Or.inr ⟨next, qrest, hq, rfl, rfl⟩⟩

theorem heapPopMin_cover {l : List (Nat × Message)} {e r}
    (h : heapPopMin l = some (e, r)) : ∀ x ∈ l, x = e ∨ x ∈ r := by
  induction l generalizing e r with
  | nil => simp [heapPopMin] at h
  | cons a rest ih =>
      rw [heapPopMin] at h
      cases hr : heapPopMin rest with
      | none =>
          rw [hr] at h
          simp at h
          obtain ⟨rfl, rfl⟩ := h
          have hrest : rest = [] := heapPopMin_none hr
          subst hrest
          intro x hx
          simp at hx
          exact Or.inl hx
      | some p =>
          obtain ⟨b, r'⟩ := p
          rw [hr] at h
          by_cases hp : heapPrefer a b <;> simp [hp] at h
          · obtain ⟨rfl, rfl⟩ := h
            intro x hx
            rcases List.mem_cons.mp hx with rfl | hmem
            · exact Or.inl rfl
            · exact Or.inr hmem
          · obtain ⟨rfl, rfl⟩ := h
            intro x hx
            rcases List.mem_cons.mp hx with rfl | hmem
            · exact Or.inr (by simp)
            · rcases ih hr x hmem with rfl | hmem'
              · exact Or.inl rfl
              · exact Or.inr (by simp [hmem'])

/-- Under the NoC invariant and a well-formed message, the scheduled
message's latency contribution dominates its pop-time `sent_timestamp`,
and a non-placeholder's final timestamps are monotone. -/
theorem stepMsg_spec (sched : Scheduler) (s : SchedState) (m : Message)
    (hnoc : NocInv s.noc) (hmg : goodMsg sched m) :
    m.sent_timestamp ≤ messageLatency (stepMsg sched s m) ∧
    ((stepMsg sched s m).placeholder = false →
      (stepMsg sched s m).sent_timestamp ≤
        (stepMsg sched s m).received_timestamp ∧
      (stepMsg sched s m).received_timestamp ≤
        (stepMsg sched s m).processed_timestamp) := by
  by_cases hph : m.placeholder = true
  · unfold stepMsg messageLatency
    simp [hph]
  · have hph' : m.placeholder = false := by simpa using hph
    have hm := NocInv_update_noc m.sent_timestamp s.noc hnoc
    have hmean := hm.1.mean_nonneg
    have hmono := schedule_handle_mono sched m
      (schedule_update_noc m.sent_timestamp s.noc) hmean hmg.2.1 hmg.2.2.1
    have hf := schedule_handle_fields sched m
      (schedule_update_noc m.sent_timestamp s.noc)
    unfold stepMsg messageLatency
    simp only [hph', Bool.false_eq_true, if_false, hf.1]
    exact ⟨hmono.1.trans (hmono.2.1.trans hmono.2.2),
      fun _ => ⟨hmono.2.1, hmono.2.2⟩⟩

/-- The `last_timestamp` update of one iteration is exactly a `max`
with the scheduled message's latency contribution. -/
theorem stepLast_eq (sched : Scheduler) (s : SchedState) (m : Message)
    (hnoc : NocInv s.noc) (hmg : goodMsg sched m) :
    stepLast sched s m =
      max s.last_timestamp (messageLatency (stepMsg sched s m)) := by
  by_cases hph : m.placeholder = true
  · unfold stepLast stepMsg messageLatency
    simp [hph]
  · have hph' : m.placeholder = false := by simpa using hph
    have hsp := (stepMsg_spec sched s m hnoc hmg).1
    have hf := schedule_handle_fields sched m
      (schedule_update_noc m.sent_timestamp s.noc)
    have hfm : messageLatency (stepMsg sched s m) =
        (stepMsg sched s m).processed_timestamp := by
      unfold messageLatency stepMsg
      simp only [hph', Bool.false_eq_true, if_false, hf.1]
    rw [hfm]
    unfold stepLast
    simp only [hph', Bool.false_eq_true, if_false]
    rw [max_assoc]
    congr 1
    have : m.sent_timestamp ≤ (stepMsg sched s m).processed_timestamp := by
      rw [← hfm]
      exact hsp
    exact max_eq_right this

/-- The scheduler loop, from any state satisfying the invariant and
with sufficient fuel, appends a block `new` of scheduled messages to
`done`; its final `last_timestamp` is the fold of `max` over their
latency contributions; every pending heap entry is eventually scheduled
with a contribution at least its current `sent_timestamp`; and every
scheduled non-placeholder has monotone timestamps. -/
theorem schedule_run_spec (sched : Scheduler) :
    ∀ (fuel : Nat) (s : SchedState), schedMeasure s ≤ fuel →
    SchedInv sched s →
    ∃ new : List Message,
      (schedule_run sched fuel s).done = s.done ++ new ∧
      (schedule_run sched fuel s).last_timestamp =
        foldMax messageLatency new s.last_timestamp ∧
      (∀ e ∈ s.priority, ∃ m' ∈ new,
        e.2.sent_timestamp ≤ messageLatency m') ∧
      (∀ m' ∈ new, m'.placeholder = false →
        m'.sent_timestamp ≤ m'.received_timestamp ∧
        m'.received_timestamp ≤ m'.processed_timestamp) := by
  intro fuel
  induction fuel with
  | zero =>
      intro s hm _
      have hlen : s.priority.length = 0 := by
        unfold schedMeasure at hm
        omega
      refine ⟨[], by simp [schedule_run], rfl, ?_, ?_⟩
      · intro e he
        rw [List.length_eq_zero.mp hlen] at he
        simp at he
      · intro m' hm'
        simp at hm'
  | succ fuel ih =>
      intro s hm hinv
      rw [schedule_run]
      cases hpop : heapPopMin s.priority with
      | none =>
          have hpr := heapPopMin_none hpop
          refine ⟨[], by simp, rfl, ?_, ?_⟩
          · intro e he
            rw [hpr] at he
            simp at he
          · intro m' hm'
            simp at hm'
      | some p =>
          obtain ⟨⟨t, m⟩, rest⟩ := p
          have hmg : goodMsg sched m :=
            hinv.heap_good _ (heapPopMin_mem hpop).1
          have hms : schedMeasure (schedule_step sched s m rest) ≤ fuel := by
            have := schedule_step_measure sched s m rest hpop
            omega
          have hinv' := SchedInv_step sched s m t rest hpop hinv
          obtain ⟨new', hdone', hlast', hheap', hmono'⟩ :=
            ih (schedule_step sched s m rest) hms hinv'
          have hchar := schedule_step_char sched s m rest
          have hsp := stepMsg_spec sched s m hinv.noc_inv hmg
          have hsl := stepLast_eq sched s m hinv.noc_inv hmg
          refine ⟨stepMsg sched s m :: new', ?_, ?_, ?_, ?_⟩
          · rw [hdone', hchar.1]
            simp
          · rw [hlast']
            have hfold : foldMax messageLatency (stepMsg sched s m :: new')
                s.last_timestamp = foldMax messageLatency new'
                  (max s.last_timestamp
                    (messageLatency (stepMsg sched s m))) := rfl
            rw [hfold]
            rcases hchar.2 with ⟨_, hlastc⟩ | ⟨next, qrest, hq, hprio, hlastc⟩
            · rw [hlastc, hsl]
            · rw [hlastc, hsl]
              apply foldMax_absorb
              have hentry : (s.counter, { next with sent_timestamp :=
                  (stepMsg sched s m).sent_timestamp + next.generation_delay })
                  ∈ (schedule_step sched s m rest).priority := by
                rw [hprio]
                simp
              obtain ⟨m'', hm''mem, hm''⟩ := hheap' _ hentry
              exact ⟨m'', hm''mem, hm''⟩
          · intro e he
            rcases heapPopMin_cover hpop e he with rfl | hmem
            · exact ⟨stepMsg sched s m, by simp, hsp.1⟩
            · have hein : e ∈ (schedule_step sched s m rest).priority := by
                rcases hchar.2 with ⟨hprio, _⟩ | ⟨next, qrest, hq, hprio, _⟩
                · rw [hprio]
                  exact hmem
                · rw [hprio]
                  exact List.mem_append_left _ hmem
              obtain ⟨m'', hm''mem, hm''⟩ := hheap' e hein
              exact ⟨m'', by simp [hm''mem], hm''⟩
          · intro m' hm' hph'
            rcases List.mem_cons.mp hm' with rfl | hmem
            · exact hsp.2 hph'
            · exact hmono' m' hmem hph'

/-- The priority-queue initialization preserves message goodness: the
heap entries and the remaining queues hold only input messages (the
heap entries with `sent_timestamp` re-assigned, which `goodMsg` does
not constrain). -/
theorem schedule_init_good (sched : Scheduler) (qs : List (List Message)) :
    ∀ tag : Nat, (∀ q ∈ qs, ∀ mm ∈ q, goodMsg sched mm) →
    (∀ e ∈ (schedule_init_timing_priority qs tag).1, goodMsg sched e.2) ∧
    (∀ q ∈ (schedule_init_timing_priority qs tag).2.1, ∀ mm ∈ q,
      goodMsg sched mm) := by
  induction qs with
  | nil =>
      intro tag _
      constructor <;> intro x hx <;> simp [schedule_init_timing_priority] at hx
  | cons q qs ih =>
      intro tag hgood
      have hqs : ∀ q' ∈ qs, ∀ mm ∈ q', goodMsg sched mm :=
        fun q' hq' => hgood q' (by simp [hq'])
      cases q with
      | nil =>
          rw [schedule_init_timing_priority]
          rcases hrec : schedule_init_timing_priority qs tag
            with ⟨p, qs', tag'⟩
          have := ih tag hqs
          rw [hrec] at this
          try dsimp only
          refine ⟨this.1, ?_⟩
          intro q' hq' mm hmm
          rcases List.mem_cons.mp hq' with rfl | hmem
          · simp at hmm
          · exact this.2 q' hmem mm hmm
      | cons m r =>
          rw [schedule_init_timing_priority]
          rcases hrec : schedule_init_timing_priority qs (tag + 1)
            with ⟨p, qs', tag'⟩
          have := ih (tag + 1) hqs
          rw [hrec] at this
          try dsimp only
          have hmgood : goodMsg sched m := hgood (m :: r) (by simp) m (by simp)
          constructor
          · intro e he
            rcases List.mem_cons.mp he with rfl | hmem
            · exact hmgood
            · exact this.1 e hmem
          · intro q' hq' mm hmm
            rcases List.mem_cons.mp hq' with rfl | hmem
            · exact hgood (m :: q') (by simp) mm (by simp [hmm])
            · exact this.2 q' hmem mm hmm

/-- The invariant holds in `schedule_messages`' start state. -/
theorem SchedInv_start (messages : List (List Message)) (sched : Scheduler)
    (hgood : ∀ q ∈ messages, ∀ mm ∈ q, goodMsg sched mm) :
    SchedInv sched
      { priority := (schedule_init_timing_priority
          ((List.range sched.core_count).map
            (fun i => messages.getD i [])) 0).1
        counter := (schedule_init_timing_priority
          ((List.range sched.core_count).map
            (fun i => messages.getD i [])) 0).2.2
        queues := (schedule_init_timing_priority
          ((List.range sched.core_count).map
            (fun i => messages.getD i [])) 0).2.1
        noc := { message_density := fun _ => 0
                 messages_in_noc := 0
                 mean_in_flight_receive_delay := 0
                 messages_received := List.replicate sched.core_count []
                 core_finished_receiving := List.replicate sched.core_count 0 }
        done := [], last_timestamp := 0 } := by
  have hpad : ∀ q ∈ (List.range sched.core_count).map
      (fun i => messages.getD i []), ∀ mm ∈ q, goodMsg sched mm := by
    intro q hq mm hmm
    obtain ⟨i, _, rfl⟩ := List.mem_map.mp hq
    rcases Nat.lt_or_ge i messages.length with hlt | hge
    · exact hgood _ (List.getD_eq_getElem messages [] hlt ▸
        List.getElem_mem hlt) mm hmm
    · rw [List.getD_eq_default messages [] hge] at hmm
      simp at hmm
  have hinit := schedule_init_good sched
    ((List.range sched.core_count).map (fun i => messages.getD i [])) 0 hpad
  refine ⟨⟨?_, ?_, ?_, ?_⟩, ?_, hinit.1, hinit.2⟩
  · show (0 : Int) = _
    rw [show flightLen (List.replicate sched.core_count ([] : List Message))
        = 0 from by
      induction sched.core_count with
      | zero => simp [flightLen]
      | succ n ihn => simpa [List.replicate, flightLen_cons] using ihn]
    simp
  · show (0 : ℚ) * _ = _
    rw [zero_mul]
    induction sched.core_count with
    | zero => simp [flightSum]
    | succ n ihn => simpa [List.replicate, flightSum_cons, qSum] using ihn
  · intro _
    rfl
  · intro q hq
    have : q = [] := List.eq_of_mem_replicate hq
    subst this
    intro mm hmm
    simp at hmm
  · show (List.replicate sched.core_count ([] : List Message)).length = _
    simp

/-- Combined final-state properties of `schedule_messages` on
well-formed input: the returned latency is the max-fold of the
scheduled messages' latency contributions, and every scheduled
non-placeholder has monotone timestamps. -/
theorem schedule_messages_spec (messages : List (List Message))
    (sched : Scheduler)
    (hgood : ∀ q ∈ messages, ∀ mm ∈ q, goodMsg sched mm) :
    (schedule_messages messages sched).1 =
      foldMax messageLatency (schedule_messages messages sched).2 0 ∧
    (∀ m' ∈ (schedule_messages messages sched).2, m'.placeholder = false →
      m'.sent_timestamp ≤ m'.received_timestamp ∧
      m'.received_timestamp ≤ m'.processed_timestamp) := by
  have hinv := SchedInv_start messages sched hgood
  obtain ⟨new, hdone, hlast, _, hmono⟩ :=
    schedule_run_spec sched _ _ (le_refl _) hinv
  unfold schedule_messages
  try dsimp only
  rw [hlast, hdone]
  refine ⟨by simp, ?_⟩
  intro m' hm'
  exact hmono m' (by simpa using hm')

/-- **C2** (amended): on well-formed input (non-negative delays,
in-range destination cores), `schedule_messages` returns the maximum of
`0` and, over all messages it scheduled, the message's final
`processed_timestamp` for non-placeholders and final `sent_timestamp`
for placeholders (`foldMax messageLatency … 0`).  In particular — as
`C2_mixed_run_counterexample` shows — in a mixed run a placeholder's
`sent_timestamp` can determine the result, contrary to the original
claim that only non-placeholder `processed_timestamp`s do. -/
theorem C2_amended_returned_latency (messages : List (List Message))
    (sched : Scheduler)
    (hgood : ∀ q ∈ messages, ∀ mm ∈ q, goodMsg sched mm) :
    (schedule_messages messages sched).1 =
      foldMax messageLatency (schedule_messages messages sched).2 0 :=
  (schedule_messages_spec messages sched hgood).1

theorem C2_amended_returned_latency_witness :
    (schedule_messages [[pC2], [rC2]] schedC2).1 =
      foldMax messageLatency (schedule_messages [[pC2], [rC2]] schedC2).2 0 :=
  C2_amended_returned_latency [[pC2], [rC2]] schedC2 (by
    intro q hq mm hmm
    simp only [List.mem_cons, List.mem_singleton, List.not_mem_nil] at hq
    rcases hq with rfl | rfl | h
    · simp only [List.mem_singleton] at hmm
      subst hmm
      exact ⟨by norm_num [pC2], by norm_num [pC2], by norm_num [pC2],
        by norm_num [pC2, schedC2]⟩
    · simp only [List.mem_singleton] at hmm
      subst hmm
      exact ⟨by norm_num [rC2], by norm_num [rC2], by norm_num [rC2],
        by norm_num [rC2, schedC2]⟩
    · simp at h)

/-- **C7** (confirmed): on input whose messages all carry non-negative
`generation_delay`, `network_delay` and `receive_delay` (and, as the
C++ requires for defined behaviour, an in-range destination core id),
every non-placeholder message scheduled by `schedule_messages` ends
with `sent_timestamp ≤ received_timestamp ≤ processed_timestamp`. -/
theorem C7_sent_le_received_le_processed (messages : List (List Message))
    (sched : Scheduler)
    (hgood : ∀ q ∈ messages, ∀ mm ∈ q, goodMsg sched mm) :
    ∀ m' ∈ (schedule_messages messages sched).2, m'.placeholder = false →
      m'.sent_timestamp ≤ m'.received_timestamp ∧
      m'.received_timestamp ≤ m'.processed_timestamp :=
  (schedule_messages_spec messages sched hgood).2

theorem C7_sent_le_received_le_processed_witness :
    ((schedule_messages [[pC2], [rC2]] schedC2).2.getD 0
        ({} : Message)).sent_timestamp ≤
      ((schedule_messages [[pC2], [rC2]] schedC2).2.getD 0
        ({} : Message)).received_timestamp ∧
    ((schedule_messages [[pC2], [rC2]] schedC2).2.getD 0
        ({} : Message)).received_timestamp ≤
      ((schedule_messages [[pC2], [rC2]] schedC2).2.getD 0
        ({} : Message)).processed_timestamp :=
  C7_sent_le_received_le_processed [[pC2], [rC2]] schedC2 (by
      intro q hq mm hmm
      simp only [List.mem_cons, List.mem_singleton, List.not_mem_nil] at hq
      rcases hq with rfl | rfl | h
      · simp only [List.mem_singleton] at hmm
        subst hmm
        exact ⟨by norm_num [pC2], by norm_num [pC2], by norm_num [pC2],
          by norm_num [pC2, schedC2]⟩
      · simp only [List.mem_singleton] at hmm
        subst hmm
        exact ⟨by norm_num [rC2], by norm_num [rC2], by norm_num [rC2],
          by norm_num [rC2, schedC2]⟩
      · simp at h)
    _
    (by norm_num [schedule_messages, schedule_init_timing_priority,
      schedMeasure, queuesTotal, schedule_run, heapPopMin, heapPrefer,
      schedule_step, schedule_handle, schedule_update_noc,
      schedule_update_noc_go, schedule_update_noc_queue,
      schedule_update_noc_message_counts,
      schedule_calculate_messages_along_route, route_links, coordRange,
      coordAsc, coordDesc, north, east, south, west, ndirections,
      pC2, rC2, schedC2, List.getD])
    (by norm_num [schedule_messages, schedule_init_timing_priority,
      schedMeasure, queuesTotal, schedule_run, heapPopMin, heapPrefer,
      schedule_step, schedule_handle, schedule_update_noc,
      schedule_update_noc_go, schedule_update_noc_queue,
      schedule_update_noc_message_counts,
      schedule_calculate_messages_along_route, route_links, coordRange,
      coordAsc, coordDesc, north, east, south, west, ndirections,
      pC2, rC2, schedC2, List.getD])

/-! ## The neuron/message processing pipeline (`pipeline.cpp`)

The pipeline's dynamic-dispatch hardware models
(`synapse_model->update`, `dendrite_model->update`,
`soma_model->update`) are embedded as deterministic oracles over their
full call history (newest call last), which is fully general for
deterministic models.  Hardware units are value records addressed by
index, as the C++ addresses them through pointers into their core. -/

/-- `NeuronStatus` from `src/chip.hpp` lines 65-71. -/
inductive NeuronStatus
  | INVALID_NEURON_STATE
  | IDLE
  | UPDATED
  | FIRED
deriving Repr, DecidableEq, Inhabited

/-- Modelled from the spec: the `BufferPosition` enum is declared in
the missing `arch.hpp`; `pipeline_parse_buffer_pos_str` (pipeline.cpp
lines 281-304) produces exactly these three values, and the `<=`
comparisons in `pipeline_process_neuron` require the order
`BUFFER_BEFORE_DENDRITE_UNIT < BUFFER_BEFORE_SOMA_UNIT <
BUFFER_BEFORE_AXON_OUT_UNIT`. -/
inductive BufferPosition
  | BUFFER_BEFORE_DENDRITE_UNIT
  | BUFFER_BEFORE_SOMA_UNIT
  | BUFFER_BEFORE_AXON_OUT_UNIT
deriving Repr, DecidableEq, Inhabited

/-- The underlying enum value of a buffer position. -/
def BufferPosition.toIdx : BufferPosition → Nat
  | .BUFFER_BEFORE_DENDRITE_UNIT => 0
  | .BUFFER_BEFORE_SOMA_UNIT => 1
  | .BUFFER_BEFORE_AXON_OUT_UNIT => 2

/-- The integer `<=` comparison on buffer positions used by
`pipeline_process_neuron`. -/
def bufLe (a b : BufferPosition) : Prop := a.toIdx ≤ b.toIdx

instance (a b : BufferPosition) : Decidable (bufLe a b) := by
  unfold bufLe
  infer_instance

structure AxonInUnit where
  latency_spike_message : ℚ := 0
  spike_messages_in : Int := 0
deriving Inhabited

structure SynapseUnit where
  latency_spike_op : ℚ := 0
  spikes_processed : Int := 0
deriving Inhabited, Repr, DecidableEq

structure SomaUnit where
  latency_access_neuron : ℚ := 0
  latency_update_neuron : ℚ := 0
  latency_spiking : ℚ := 0
  neuron_updates : Int := 0
  neurons_fired : Int := 0
deriving Inhabited

structure AxonOutUnit where
  latency_access : ℚ := 0
  packets_out : Int := 0
deriving Inhabited

/-- `AxonInModel` (`src/chip.hpp` lines 495-502): the synapse addresses
fanned out from one in-axon entry. -/
structure AxonInModel where
  synapse_addresses : List Nat := []
deriving Inhabited

/-- A mapped neuron (`network.hpp` `Neuron` / `src/chip.hpp`
`MappedNeuron`), restricted to the state the pipeline reads and
writes.  The dendrite input buffer stores the synaptic currents (the
opaque `dendrite_params` piggybacked on a `Synapse` record are part of
the dendrite oracle's input and are represented by the current). -/
structure Neuron where
  soma_model : List (Option ℚ) → NeuronStatus
  dendrite_model : List (Option ℚ) → ℚ
  soma_hist : List (Option ℚ) := []
  dendrite_hist : List (Option ℚ) := []
  soma_hw : Nat := 0
  axon_out_hw : Nat := 0
  axon_out_addresses : List Nat := []
  id : Nat := 0
  spike_count : Int := 0
  soma_last_updated : Int := 0
  dendrite_last_updated : Int := 0
  forced_spikes : Int := 0
  soma_input_charge : ℚ := 0
  status : NeuronStatus := .IDLE
  axon_out_input_spike : Bool := false
  dendrite_input_synapses : List ℚ := []

instance : Inhabited Neuron :=
  ⟨{ soma_model := fun _ => .IDLE, dendrite_model := fun _ => 0 }⟩

/-- A mapped connection (`network.hpp` `Connection`), restricted to the
pipeline-visible state. -/
structure Connection where
  synapse_model : List (Option Nat) → ℚ
  synapse_hist : List (Option Nat) := []
  post_neuron : Nat := 0
  synapse_hw : Nat := 0
  last_updated : Int := 0

instance : Inhabited Connection := ⟨{ synapse_model := fun _ => 0 }⟩

/-- A core (`arch.hpp` `Core`, missing header; fields taken from their
uses in `pipeline.cpp`): its hardware units, in-connection and in-axon
tables, mapped neurons, the pipeline buffer position
(`pipeline_config.timestep_buffer_pos`), and the accumulated
`next_message_generation_delay`. -/
structure Core where
  neurons : List Neuron := []
  connections_in : List Connection := []
  axons_in : List AxonInModel := []
  axon_in_hw : List AxonInUnit := []
  synapse : List SynapseUnit := []
  soma : List SomaUnit := []
  axon_out_hw : List AxonOutUnit := []
  timestep_buffer_pos : BufferPosition := .BUFFER_BEFORE_SOMA_UNIT
  next_message_generation_delay : ℚ := 0
  id : Nat := 0

instance : Inhabited Core := ⟨{}⟩

/-- `sanafe::pipeline_process_synapse` (`pipeline.cpp` lines 158-185):
advance the connection's synapse model once per missed timestep, invoke
it once more with the synaptic lookup to obtain the current, buffer the
current at the post-neuron's dendrite, and bump the spike counters.
Returns the synapse unit's `latency_spike_op`. -/
def pipeline_process_synapse (ts : Int) (core : Core)
    (synapse_address : Nat) : Core × ℚ :=
  let con := core.connections_in.getD synapse_address default
  let decay := (ts - con.last_updated).toNat
  let hist := (con.synapse_hist ++ List.replicate decay none) ++
    [some synapse_address]
  let current := con.synapse_model hist
  let con' := { con with
    synapse_hist := hist
    last_updated := if con.last_updated < ts then ts else con.last_updated }
  let n := core.neurons.getD con.post_neuron default
  let n' := { n with
    dendrite_input_synapses := n.dendrite_input_synapses ++ [current]
    spike_count := n.spike_count + 1 }
  let sh := core.synapse.getD con.synapse_hw default
  let sh' := { sh with spikes_processed := sh.spikes_processed + 1 }
  ({ core with
      connections_in := core.connections_in.set synapse_address con'
      neurons := core.neurons.set con.post_neuron n'
      synapse := core.synapse.set con.synapse_hw sh' },
    sh.latency_spike_op)

/-- The dendrite integration loop of `pipeline_process_dendrite`: feed
each buffered synaptic input to the dendrite model in order, keeping
the last returned charge. -/
def dendriteIntegrate (model : List (Option ℚ) → ℚ) :
    List ℚ → List (Option ℚ) → ℚ → List (Option ℚ) × ℚ
  | [], hist, charge => (hist, charge)
  | s :: rest, hist, _ =>
      let hist' := hist ++ [some s]
      dendriteIntegrate model rest hist' (model hist')

/-- `sanafe::pipeline_process_dendrite` (`pipeline.cpp` lines 187-211):
advance the dendrite model once per missed timestep (no synapse input),
then integrate each buffered synaptic input; the soma input charge is
the last model result; the buffer is cleared.  The local `latency`
variable is initialized to `0.0` and never modified, so the returned
latency is always `0`. -/
def pipeline_process_dendrite (ts : Int) (n : Neuron) : Neuron × ℚ :=
  let decay := (ts - n.dendrite_last_updated).toNat
  let hist1 := n.dendrite_hist ++ List.replicate decay none
  let charge1 := if decay = 0 then n.soma_input_charge
    else n.dendrite_model hist1
  let r := dendriteIntegrate n.dendrite_model
    n.dendrite_input_synapses hist1 charge1
  ({ n with
      dendrite_hist := r.1
      soma_input_charge := r.2
      dendrite_last_updated := if n.dendrite_last_updated < ts then ts
        else n.dendrite_last_updated
      dendrite_input_synapses := [] },
    0)

/-- One iteration of the `while (n.soma_last_updated < ts.timestep)`
loop of `sanafe::pipeline_process_soma` (`pipeline.cpp` lines
217-247): pass the accumulated charge to the soma model only when a
spike was received this step or the charge is nonzero (then zero the
charge); honour `forced_spikes`; account the access, update and
spike-out latencies from the resulting status. -/
def somaStep (n : Neuron) (su : SomaUnit) : Neuron × SomaUnit × ℚ :=
  let soma_current_in : Option ℚ :=
    if n.spike_count > 0 ∨ |n.soma_input_charge| > 0 then
      some n.soma_input_charge
    else none
  let charge' := if n.spike_count > 0 ∨ |n.soma_input_charge| > 0 then 0
    else n.soma_input_charge
  let hist := n.soma_hist ++ [soma_current_in]
  let status1 := n.soma_model hist
  let status2 := if n.forced_spikes > 0 then NeuronStatus.FIRED else status1
  let forced' := if n.forced_spikes > 0 then n.forced_spikes - 1
    else n.forced_spikes
  let lat := su.latency_access_neuron +
    (if status2 = .UPDATED ∨ status2 = .FIRED then su.latency_update_neuron
     else 0) +
    (if status2 = .FIRED then su.latency_spiking else 0)
  let su' := { su with
    neuron_updates := if status2 = .UPDATED ∨ status2 = .FIRED then
      su.neuron_updates + 1 else su.neuron_updates
    neurons_fired := if status2 = .FIRED then su.neurons_fired + 1
      else su.neurons_fired }
  let n' := { n with
    soma_hist := hist
    soma_input_charge := charge'
    status := status2
    forced_spikes := forced'
    axon_out_input_spike := if status2 = .FIRED then true
      else n.axon_out_input_spike
    soma_last_updated := n.soma_last_updated + 1 }
  (n', su', lat)

/-- The soma `while` loop, iterated a fixed number of steps (the loop
runs exactly `(ts − soma_last_updated)` iterations since each one
increments `soma_last_updated`). -/
def somaLoop : Nat → Neuron → SomaUnit → Neuron × SomaUnit × ℚ
  | 0, n, su => (n, su, 0)
  | k + 1, n, su =>
      let r1 := somaStep n su
      let r2 := somaLoop k r1.1 r1.2.1
      (r2.1, r2.2.1, r1.2.2 + r2.2.2)

/-- `sanafe::pipeline_process_soma` (`pipeline.cpp` lines 213-252). -/
def pipeline_process_soma (ts : Int) (n : Neuron) (su : SomaUnit) :
    Neuron × SomaUnit × ℚ :=
  somaLoop (ts - n.soma_last_updated).toNat n su

/-- `sanafe::pipeline_process_axon_in` (`pipeline.cpp` lines 148-156). -/
def pipeline_process_axon_in (core : Core) (m : Message) : Core × ℚ :=
  let axon_unit := core.axon_in_hw.getD m.dest_axon_hw default
  let axon_unit' := { axon_unit with
    spike_messages_in := axon_unit.spike_messages_in + 1 }
  ({ core with
      axon_in_hw := core.axon_in_hw.set m.dest_axon_hw axon_unit' },
    axon_unit.latency_spike_message)

/-- Modelled from the spec: the real-message constructor
`Message(arch, n, ts, axon_address)` lives in the missing chip/sim
translation unit; it marks the message as a real spike message from
neuron `n` (destination and coordinate fields are resolved from the
out-axon table and are not read by any pipeline claim). -/
def mkSpikeMessage (core : Core) (n : Neuron) (gen : ℚ) : Message :=
  { generation_delay := gen, placeholder := false, src_neuron_id := n.id
    src_core_id := core.id }

/-- Modelled from the spec: the placeholder constructor
`Message(arch, n, ts)` leaves `placeholder` at its `true` default
(`src/chip.hpp` line 237). -/
def mkPlaceholderMessage (core : Core) (n : Neuron) (gen : ℚ) : Message :=
  { generation_delay := gen, placeholder := true, src_neuron_id := n.id
    src_core_id := core.id }

/-- The `for (int axon_address : n.axon_out_addresses)` loop of
`pipeline_process_axon_out` (`pipeline.cpp` lines 264-275): each
message takes the accumulated delay (zeroing the accumulator) plus the
axon-out access latency. -/
def axon_out_loop (core : Core) (n : Neuron) (lat : ℚ) :
    List Nat → ℚ → List Message × ℚ
  | [], acc => ([], acc)
  | _ :: rest, acc =>
      let m := mkSpikeMessage core n (acc + lat)
      let r := axon_out_loop core n lat rest 0
      (m :: r.1, r.2)

/-- `sanafe::pipeline_process_axon_out` (`pipeline.cpp` lines
254-279): nothing happens unless the neuron has a pending output spike;
otherwise one message per out-axon address is materialized and the
spike flag is cleared.  Returns the updated core, the messages pushed
to the core's per-timestep queue, and the unit's access latency. -/
def pipeline_process_axon_out (core : Core) (nIdx : Nat) :
    Core × List Message × ℚ :=
  let n := core.neurons.getD nIdx default
  if !n.axon_out_input_spike then (core, [], 0)
  else
    let hw := core.axon_out_hw.getD n.axon_out_hw default
    let r := axon_out_loop core n hw.latency_access n.axon_out_addresses
      core.next_message_generation_delay
    let hw' := { hw with packets_out := hw.packets_out +
      (n.axon_out_addresses.length : Int) }
    let n' := { n with axon_out_input_spike := false }
    let core' := { core with
      next_message_generation_delay := r.2
      axon_out_hw := core.axon_out_hw.set n.axon_out_hw hw'
      neurons := core.neurons.set nIdx n' }
    (core', r.1, hw.latency_access)

/-- The dendrite stage of `pipeline_process_neuron` (`pipeline.cpp`
lines 90-94). -/
def neuronStage1 (ts : Int) (core : Core) (nIdx : Nat) : Core × ℚ :=
  if bufLe core.timestep_buffer_pos .BUFFER_BEFORE_DENDRITE_UNIT then
    let n := core.neurons.getD nIdx default
    let r := pipeline_process_dendrite ts n
    ({ core with neurons := core.neurons.set nIdx r.1 }, r.2)
  else (core, 0)

/-- The soma stage of `pipeline_process_neuron` (`pipeline.cpp` lines
95-98); the guard compares the *original* core's buffer position
(`timestep_buffer_pos` is never modified by the stages, so this is the
value the C++ reads through `n.core->pipeline_config`). -/
def neuronStage2 (ts : Int) (pos : BufferPosition) (core1 : Core)
    (nIdx : Nat) : Core × ℚ :=
  if bufLe pos .BUFFER_BEFORE_SOMA_UNIT then
    let n := core1.neurons.getD nIdx default
    let su := core1.soma.getD n.soma_hw default
    let r := pipeline_process_soma ts n su
    ({ core1 with
        neurons := core1.neurons.set nIdx r.1
        soma := core1.soma.set n.soma_hw r.2.1 }, r.2.2)
  else (core1, 0)

/-- The axon-out stage of `pipeline_process_neuron` (`pipeline.cpp`
lines 99-103). -/
def neuronStage3 (pos : BufferPosition) (core2 : Core) (nIdx : Nat) :
    Core × List Message × ℚ :=
  if bufLe pos .BUFFER_BEFORE_AXON_OUT_UNIT then
    pipeline_process_axon_out core2 nIdx
  else (core2, [], 0)

/-- `sanafe::pipeline_process_neuron` (`pipeline.cpp` lines 85-109):
run the dendrite, soma and axon-out stages on neuron `nIdx` according
to the buffer position (each guard compares `timestep_buffer_pos` with
`<=`), accumulate the reported latency into the core's
`next_message_generation_delay` (after axon-out ran), and reset the
neuron's `spike_count`.  Returns the updated core, the messages the
axon-out unit pushed, and the accumulated `neuron_processing_latency`
local. -/
def pipeline_process_neuron (ts : Int) (core : Core) (nIdx : Nat) :
    Core × List Message × ℚ :=
  let p1 := neuronStage1 ts core nIdx
  let core1 := p1.1
  let p2 := neuronStage2 ts core.timestep_buffer_pos core1 nIdx
  let core2 := p2.1
  let p3 := neuronStage3 core.timestep_buffer_pos core2 nIdx
  let core3 := p3.1
  let neuron_processing_latency := p1.2 + p2.2 + p3.2.2
  let n3 := core3.neurons.getD nIdx default
  ({ core3 with
      next_message_generation_delay :=
        core3.next_message_generation_delay + neuron_processing_latency
      neurons := core3.neurons.set nIdx { n3 with spike_count := 0 } },
    p3.2.1, neuron_processing_latency)

/-- The `for (Neuron *n : core.neurons)` loop of
`pipeline_process_neurons`, over the given neuron indices, collecting
the messages pushed to the core's per-timestep queue in order. -/
def processNeuronsFrom (ts : Int) : List Nat → Core → Core × List Message
  | [], core => (core, [])
  | i :: rest, core =>
      let r := pipeline_process_neuron ts core i
      let r2 := processNeuronsFrom ts rest r.1
      (r2.1, r.2.1 ++ r2.2)

/-- The per-core body of `sanafe::pipeline_process_neurons`
(`pipeline.cpp` lines 22-38): process every mapped neuron in order,
then, if the accumulated generation delay is nonzero, push a
placeholder message sourced at the last mapped neuron carrying that
delay.  (The accumulator is *not* reset afterwards.) -/
def pipeline_process_neurons_core (ts : Int) (core : Core) :
    Core × List Message :=
  let r := processNeuronsFrom ts (List.range core.neurons.length) core
  if r.1.next_message_generation_delay ≠ 0 then
    let last_neuron := r.1.neurons.getLastD default
    (r.1, r.2 ++ [mkPlaceholderMessage r.1 last_neuron
      r.1.next_message_generation_delay])
  else
    (r.1, r.2)

/-- One iteration of the per-synapse receive loop of
`sanafe::pipeline_process_message` (`pipeline.cpp` lines 121-143): run
the synapse unit; stop if the buffer is before the dendrite unit; run
the dendrite unit on the connection's post-neuron; stop if the buffer
is before the soma unit; run the soma unit (the C++ then asserts
`timestep_buffer_pos == BUFFER_BEFORE_AXON_OUT_UNIT`). -/
def pipeline_receive_synapse (ts : Int) (core : Core)
    (synapse_address : Nat) : Core × ℚ :=
  let r1 := pipeline_process_synapse ts core synapse_address
  if core.timestep_buffer_pos = .BUFFER_BEFORE_DENDRITE_UNIT then r1
  else
    let con := core.connections_in.getD synapse_address default
    let core1 := r1.1
    let n := core1.neurons.getD con.post_neuron default
    let rd := pipeline_process_dendrite ts n
    let core2 := { core1 with
      neurons := core1.neurons.set con.post_neuron rd.1 }
    let lat2 := r1.2 + rd.2
    if core.timestep_buffer_pos = .BUFFER_BEFORE_SOMA_UNIT then (core2, lat2)
    else
      let n2 := core2.neurons.getD con.post_neuron default
      let su := core2.soma.getD n2.soma_hw default
      let rs := pipeline_process_soma ts n2 su
      ({ core2 with
          neurons := core2.neurons.set con.post_neuron rs.1
          soma := core2.soma.set n2.soma_hw rs.2.1 },
        lat2 + rs.2.2)

/-- The receive loop over all synapse addresses of the in-axon entry. -/
def receiveSynapses (ts : Int) : List Nat → Core → Core × ℚ
  | [], core => (core, 0)
  | a :: rest, core =>
      let r := pipeline_receive_synapse ts core a
      let r2 := receiveSynapses ts rest r.1
      (r2.1, r.2 + r2.2)

/-- `sanafe::pipeline_process_message` (`pipeline.cpp` lines 111-146):
axon-in, then the per-synapse receive loop; returns the summed message
processing latency. -/
def pipeline_process_message (ts : Int) (core : Core) (m : Message) :
    Core × ℚ :=
  let r0 := pipeline_process_axon_in core m
  let axon_in := r0.1.axons_in.getD m.dest_axon_id default
  let r := receiveSynapses ts axon_in.synapse_addresses r0.1
  (r.1, r0.2 + r.2)

/-! ## Claim C10: only the first message carries the accumulator -/

theorem axon_out_loop_gens_zero (core : Core) (n : Neuron) (lat : ℚ) :
    ∀ addrs : List Nat,
      ((axon_out_loop core n lat addrs 0).1).map Message.generation_delay =
        addrs.map (fun _ => lat)
  | [] => rfl
  | _ :: rest => by
      simp only [axon_out_loop, List.map_cons, List.cons.injEq]
      exact ⟨by simp [mkSpikeMessage],
        axon_out_loop_gens_zero core n lat rest⟩

theorem axon_out_loop_gens_cons (core : Core) (n : Neuron) (lat : ℚ)
    (a : Nat) (rest : List Nat) (acc : ℚ) :
    ((axon_out_loop core n lat (a :: rest) acc).1).map
        Message.generation_delay =
      (acc + lat) :: rest.map (fun _ => lat) := by
  simp only [axon_out_loop, List.map_cons, List.cons.injEq]
  exact ⟨by simp [mkSpikeMessage], axon_out_loop_gens_zero core n lat rest⟩

/-- **C10** (confirmed): when a fired neuron (pending output spike) has
axon addresses `a :: rest`, the first materialized message's
`generation_delay` is the core's accumulated
`next_message_generation_delay` plus the axon-out unit's
`latency_access`; every subsequent message's `generation_delay` is the
unit's `latency_access` alone (the first message zeroed the
accumulator). -/
theorem C10_first_message_takes_accumulator (core : Core) (nIdx : Nat)
    (a : Nat) (rest : List Nat)
    (hspike : (core.neurons.getD nIdx default).axon_out_input_spike = true)
    (haddr : (core.neurons.getD nIdx default).axon_out_addresses = a :: rest) :
    ((pipeline_process_axon_out core nIdx).2.1).map Message.generation_delay =
      (core.next_message_generation_delay +
        (core.axon_out_hw.getD
          (core.neurons.getD nIdx default).axon_out_hw
          default).latency_access) ::
      rest.map (fun _ =>
        (core.axon_out_hw.getD
          (core.neurons.getD nIdx default).axon_out_hw
          default).latency_access) := by
  unfold pipeline_process_axon_out
  simp only [hspike, Bool.not_true, Bool.false_eq_true, if_false, haddr,
    axon_out_loop_gens_cons]

/-- A core for the C10 and C3 witnesses: one fired neuron with two
out-axon addresses, axon-out access latency `4`, accumulated delay
`5`. -/
def coreC10 : Core :=
  { neurons := [{ soma_model := fun _ => .IDLE
                  dendrite_model := fun _ => 0
                  axon_out_input_spike := true
                  axon_out_addresses := [0, 1] }]
    axon_out_hw := [{ latency_access := 4 }]
    next_message_generation_delay := 5 }

theorem C10_first_message_takes_accumulator_witness :
    ((pipeline_process_axon_out coreC10 0).2.1).map
        Message.generation_delay =
      (coreC10.next_message_generation_delay +
        (coreC10.axon_out_hw.getD
          (coreC10.neurons.getD 0 default).axon_out_hw
          default).latency_access) ::
      [1].map (fun _ =>
        (coreC10.axon_out_hw.getD
          (coreC10.neurons.getD 0 default).axon_out_hw
          default).latency_access) :=
  C10_first_message_takes_accumulator coreC10 0 0 [1] (by rfl) (by rfl)

/-! ## Claim C9: where the per-synapse receive loop stops -/

/-- **C9** (confirmed): for each synapse address of a received message,
the receive loop body runs the synapse unit and then stops when the
buffer is `before_dendrite`; runs the dendrite unit on the connection's
post-neuron and stops when the buffer is `before_soma`; and otherwise
also runs the soma unit — and in that branch the asserted condition
`timestep_buffer_pos == BUFFER_BEFORE_AXON_OUT_UNIT` (pipeline.cpp
lines 141-142) always holds, since the buffer position takes only the
three parsed values. -/
theorem C9_receive_loop_stops (ts : Int) (core : Core) (a : Nat) :
    (core.timestep_buffer_pos = .BUFFER_BEFORE_DENDRITE_UNIT →
      pipeline_receive_synapse ts core a =
        pipeline_process_synapse ts core a) ∧
    (core.timestep_buffer_pos = .BUFFER_BEFORE_SOMA_UNIT →
      pipeline_receive_synapse ts core a =
        (let r1 := pipeline_process_synapse ts core a
         let con := core.connections_in.getD a default
         let rd := pipeline_process_dendrite ts
           (r1.1.neurons.getD con.post_neuron default)
         ({ r1.1 with neurons := r1.1.neurons.set con.post_neuron rd.1 },
           r1.2 + rd.2))) ∧
    (core.timestep_buffer_pos = .BUFFER_BEFORE_AXON_OUT_UNIT →
      pipeline_receive_synapse ts core a =
        (let r1 := pipeline_process_synapse ts core a
         let con := core.connections_in.getD a default
         let rd := pipeline_process_dendrite ts
           (r1.1.neurons.getD con.post_neuron default)
         let core2 : Core := { r1.1 with
           neurons := r1.1.neurons.set con.post_neuron rd.1 }
         let n2 := core2.neurons.getD con.post_neuron default
         let rs := pipeline_process_soma ts n2
           (core2.soma.getD n2.soma_hw default)
         ({ core2 with
             neurons := core2.neurons.set con.post_neuron rs.1
             soma := core2.soma.set n2.soma_hw rs.2.1 },
           r1.2 + rd.2 + rs.2.2))) ∧
    (core.timestep_buffer_pos ≠ .BUFFER_BEFORE_DENDRITE_UNIT →
      core.timestep_buffer_pos ≠ .BUFFER_BEFORE_SOMA_UNIT →
      core.timestep_buffer_pos = .BUFFER_BEFORE_AXON_OUT_UNIT) := by
  refine ⟨?_, ?_, ?_, ?_⟩
  · intro hb
    unfold pipeline_receive_synapse
    rw [if_pos hb]
  · intro hb
    unfold pipeline_receive_synapse
    rw [if_neg (by rw [hb]; intro h; cases h), if_pos hb]
  · intro hb
    unfold pipeline_receive_synapse
    rw [if_neg (by rw [hb]; intro h; cases h),
      if_neg (by rw [hb]; intro h; cases h)]
  · intro h1 h2
    cases hb : core.timestep_buffer_pos
    · exact absurd hb h1
    · exact absurd hb h2
    · rfl

/-- A receive-side core for the C9 witness: buffer before the axon-out
unit, one connection feeding neuron 0. -/
def coreC9 : Core :=
  { neurons := [{ soma_model := fun _ => .IDLE
                  dendrite_model := fun _ => 0 }]
    connections_in := [{ synapse_model := fun _ => 0 }]
    synapse := [{ latency_spike_op := 2 }]
    soma := [{ latency_access_neuron := 1 }]
    timestep_buffer_pos := .BUFFER_BEFORE_AXON_OUT_UNIT }

theorem C9_receive_loop_stops_witness :
    pipeline_receive_synapse 1 coreC9 0 =
      (let r1 := pipeline_process_synapse 1 coreC9 0
       let con := coreC9.connections_in.getD 0 default
       let rd := pipeline_process_dendrite 1
         (r1.1.neurons.getD con.post_neuron default)
       let core2 : Core := { r1.1 with
         neurons := r1.1.neurons.set con.post_neuron rd.1 }
       let n2 := core2.neurons.getD con.post_neuron default
       let rs := pipeline_process_soma 1 n2
         (core2.soma.getD n2.soma_hw default)
       ({ core2 with
           neurons := core2.neurons.set con.post_neuron rs.1
           soma := core2.soma.set n2.soma_hw rs.2.1 },
         r1.2 + rd.2 + rs.2.2)) ∧
    coreC9.timestep_buffer_pos = .BUFFER_BEFORE_AXON_OUT_UNIT :=
  ⟨(C9_receive_loop_stops 1 coreC9 0).2.2.1 (by rfl),
    (C9_receive_loop_stops 1 coreC9 0).2.2.2 (by intro h; cases h)
      (by intro h; cases h)⟩

/-! ## Claim C5: when the synapse unit runs

The claim says the synapse unit is invoked during the process-neurons
(send-side) phase iff the buffer position is `before_dendrite`.  In
the code, `pipeline_process_neuron` invokes only the dendrite, soma and
axon-out units — never `pipeline_process_synapse` — for every buffer
position; and on the receive side `pipeline_process_message` invokes
the synapse unit for every synapse address regardless of the buffer
position. -/

theorem pipeline_process_axon_out_preserves_synapse (c : Core) (i : Nat) :
    (pipeline_process_axon_out c i).1.synapse = c.synapse := by
  unfold pipeline_process_axon_out
  dsimp only
  split
  · rfl
  · rfl

theorem pipeline_process_axon_out_preserves_connections (c : Core) (i : Nat) :
    (pipeline_process_axon_out c i).1.connections_in = c.connections_in := by
  unfold pipeline_process_axon_out
  dsimp only
  split
  · rfl
  · rfl

theorem pipeline_receive_connections (ts : Int) (core : Core) (a : Nat) :
    (pipeline_receive_synapse ts core a).1.connections_in =
      (pipeline_process_synapse ts core a).1.connections_in := by
  unfold pipeline_receive_synapse
  split
  · rfl
  · split
    · rfl
    · rfl

/-- **C5** (amended): during the process-neurons (send-side) phase the
synapse unit is *never* invoked — `pipeline_process_neuron` leaves every
synapse unit's state (`spikes_processed`) and every connection's state
(synapse model history, `last_updated`) unchanged, for every buffer
position — while at message-receive time the per-synapse loop invokes
the synapse unit (appending the synaptic lookup to the connection's
model history) for every buffer position. -/
theorem C5_amended_synapse_only_at_receive (ts : Int) (core : Core)
    (nIdx a : Nat) (ha : a < core.connections_in.length) :
    (pipeline_process_neuron ts core nIdx).1.synapse = core.synapse ∧
    (pipeline_process_neuron ts core nIdx).1.connections_in =
      core.connections_in ∧
    ((pipeline_receive_synapse ts core a).1.connections_in.getD a
        default).synapse_hist =
      ((core.connections_in.getD a default).synapse_hist ++
        List.replicate
          ((ts - (core.connections_in.getD a default).last_updated)).toNat
          none) ++ [some a] := by
  refine ⟨?_, ?_, ?_⟩
  · unfold pipeline_process_neuron neuronStage1 neuronStage2 neuronStage3
    try dsimp only
    split <;> split <;> split <;>
      simp [pipeline_process_axon_out_preserves_synapse]
  · unfold pipeline_process_neuron neuronStage1 neuronStage2 neuronStage3
    try dsimp only
    split <;> split <;> split <;>
      simp [pipeline_process_axon_out_preserves_connections]
  · rw [pipeline_receive_connections]
    unfold pipeline_process_synapse
    try dsimp only
    rw [List.getD_eq_getElem _ _ (by simpa using ha)]
    rw [List.getElem_set_self]

/-- A send-side core with buffer position `before_dendrite`, one
neuron, one in-connection and one synapse unit with no spikes processed
yet. -/
def coreC5 : Core :=
  { neurons := [{ soma_model := fun _ => .IDLE
                  dendrite_model := fun _ => 0 }]
    connections_in := [{ synapse_model := fun _ => 0 }]
    synapse := [{ latency_spike_op := 2, spikes_processed := 0 }]
    soma := [{ latency_access_neuron := 3 }]
    timestep_buffer_pos := .BUFFER_BEFORE_DENDRITE_UNIT }

theorem C5_amended_synapse_only_at_receive_witness :
    (pipeline_process_neuron 1 coreC5 0).1.synapse = coreC5.synapse ∧
    (pipeline_process_neuron 1 coreC5 0).1.connections_in =
      coreC5.connections_in ∧
    ((pipeline_receive_synapse 1 coreC5 0).1.connections_in.getD 0
        default).synapse_hist =
      ((coreC5.connections_in.getD 0 default).synapse_hist ++
        List.replicate
          ((1 - (coreC5.connections_in.getD 0 default).last_updated)).toNat
          none) ++ [some 0] :=
  C5_amended_synapse_only_at_receive 1 coreC5 0 0 (by simp [coreC5])

/-- **C5** (counterexample): with the buffer at `before_dendrite` — the
one position where the claim says the synapse unit *is* invoked at
send — processing the core's neuron leaves the synapse unit untouched:
`spikes_processed` stays `0` and the connection's synapse model is
never called. -/
theorem C5_counterexample_before_dendrite_no_synapse :
    coreC5.timestep_buffer_pos = .BUFFER_BEFORE_DENDRITE_UNIT ∧
    (pipeline_process_neuron 1 coreC5 0).1.synapse =
      [{ latency_spike_op := 2, spikes_processed := 0 }] ∧
    ((pipeline_process_neuron 1 coreC5
        0).1.connections_in.getD 0 default).synapse_hist = [] := by
  refine ⟨rfl, ?_, ?_⟩ <;>
    simp +decide [pipeline_process_neuron, neuronStage1, neuronStage2,
      neuronStage3, pipeline_process_dendrite,
      dendriteIntegrate, pipeline_process_soma, somaLoop, somaStep,
      pipeline_process_axon_out, axon_out_loop, bufLe,
      BufferPosition.toIdx, coreC5, List.getD]

/-! ## Claim C4: the end-of-core placeholder

The claim's placeholder-append condition and field values match the
code, but the claim also says the accumulator
`core.next_message_generation_delay` "is then reset to zero" —
`pipeline_process_neurons` (pipeline.cpp lines 30-37) contains no such
reset. -/

/-- **C4** (amended): after all of a core's neurons are processed, a
placeholder message (`placeholder = true`, source = the last mapped
neuron, `generation_delay` = the accumulated
`next_message_generation_delay`) is appended to the core's queue iff
the accumulated delay is nonzero; the accumulator keeps its accumulated
value — it is *not* reset to zero. -/
theorem C4_amended_placeholder_append_no_reset (ts : Int) (core : Core) :
    ((pipeline_process_neurons_core ts core).2 =
      (processNeuronsFrom ts (List.range core.neurons.length) core).2 ++
      (if (processNeuronsFrom ts (List.range core.neurons.length)
            core).1.next_message_generation_delay ≠ 0 then
        [mkPlaceholderMessage
          (processNeuronsFrom ts (List.range core.neurons.length) core).1
          ((processNeuronsFrom ts (List.range core.neurons.length)
            core).1.neurons.getLastD default)
          (processNeuronsFrom ts (List.range core.neurons.length)
            core).1.next_message_generation_delay]
       else [])) ∧
    (pipeline_process_neurons_core ts core).1.next_message_generation_delay =
      (processNeuronsFrom ts (List.range core.neurons.length)
        core).1.next_message_generation_delay ∧
    (∀ (c : Core) (n : Neuron) (g : ℚ),
      (mkPlaceholderMessage c n g).placeholder = true ∧
      (mkPlaceholderMessage c n g).src_neuron_id = n.id ∧
      (mkPlaceholderMessage c n g).generation_delay = g) := by
  refine ⟨?_, ?_, fun c n g => ⟨rfl, rfl, rfl⟩⟩
  · unfold pipeline_process_neurons_core
    dsimp only
    split
    · rfl
    · simp
  · unfold pipeline_process_neurons_core
    dsimp only
    split
    · rfl
    · rfl

/-- A core whose single neuron accumulates a soma access latency of `3`
during the process-neurons phase (buffer before the soma unit). -/
def coreC4 : Core :=
  { neurons := [{ soma_model := fun _ => .IDLE
                  dendrite_model := fun _ => 0 }]
    soma := [{ latency_access_neuron := 3 }]
    timestep_buffer_pos := .BUFFER_BEFORE_SOMA_UNIT }

/-- **C4** (counterexample): after the process-neurons phase on
`coreC4`, a placeholder carrying the accumulated delay `3` was appended
— but the accumulator still holds `3`, not `0` as the claim's "is then
reset to zero" requires. -/
theorem C4_counterexample_accumulator_not_reset :
    (pipeline_process_neurons_core 1
        coreC4).1.next_message_generation_delay = 3 ∧
    ¬ (pipeline_process_neurons_core 1
        coreC4).1.next_message_generation_delay = 0 ∧
    ((pipeline_process_neurons_core 1 coreC4).2.map
        Message.generation_delay = [3]) ∧
    ((pipeline_process_neurons_core 1 coreC4).2.map
        Message.placeholder = [true]) := by
  refine ⟨?_, ?_, ?_, ?_⟩ <;>
    simp +decide [pipeline_process_neurons_core, processNeuronsFrom,
      pipeline_process_neuron, neuronStage1, neuronStage2, neuronStage3,
      pipeline_process_dendrite,
      dendriteIntegrate, pipeline_process_soma, somaLoop, somaStep,
      pipeline_process_axon_out, axon_out_loop, mkPlaceholderMessage,
      bufLe, BufferPosition.toIdx, coreC4, List.getD]

/-! ## Claim C8: the send-side soma step -/

/-- **C8** (confirmed): while `soma_last_updated < ts` the soma loop
takes a step; in each step the soma model is passed the accumulated
charge iff the neuron received a spike this timestep
(`spike_count > 0`) or the charge is nonzero (`fabs > 0`), and
otherwise no current; afterwards a positive `forced_spikes` forces the
status to `FIRED` and is decremented (and otherwise the status is the
model's answer and the counter is unchanged); the step's latency is
`latency_access_neuron`, plus `latency_update_neuron` when the
resulting status is `UPDATED` or `FIRED`, plus `latency_spiking` when
it is `FIRED`. -/
theorem C8_soma_send_step (ts : Int) (n : Neuron) (su : SomaUnit)
    (h : n.soma_last_updated < ts) :
    pipeline_process_soma ts n su =
      ((pipeline_process_soma ts (somaStep n su).1 (somaStep n su).2.1).1,
       (pipeline_process_soma ts (somaStep n su).1 (somaStep n su).2.1).2.1,
       (somaStep n su).2.2 +
         (pipeline_process_soma ts (somaStep n su).1
           (somaStep n su).2.1).2.2) ∧
    (somaStep n su).1.soma_hist = n.soma_hist ++
      [if n.spike_count > 0 ∨ n.soma_input_charge ≠ 0 then
        some n.soma_input_charge else none] ∧
    (n.forced_spikes > 0 →
      (somaStep n su).1.status = .FIRED ∧
      (somaStep n su).1.forced_spikes = n.forced_spikes - 1) ∧
    (¬ n.forced_spikes > 0 →
      (somaStep n su).1.status = n.soma_model ((somaStep n su).1.soma_hist) ∧
      (somaStep n su).1.forced_spikes = n.forced_spikes) ∧
    (somaStep n su).2.2 = su.latency_access_neuron +
      (if (somaStep n su).1.status = .UPDATED ∨
          (somaStep n su).1.status = .FIRED then
        su.latency_update_neuron else 0) +
      (if (somaStep n su).1.status = .FIRED then su.latency_spiking
       else 0) := by
  refine ⟨?_, ?_, ?_, ?_, ?_⟩
  · have hk : (ts - n.soma_last_updated).toNat =
        (ts - (n.soma_last_updated + 1)).toNat + 1 := by omega
    have hlast : (somaStep n su).1.soma_last_updated =
        n.soma_last_updated + 1 := by
      simp [somaStep]
    unfold pipeline_process_soma
    rw [hk, hlast]
    rfl
  · simp [somaStep, abs_pos]
  · intro hf
    constructor <;> simp [somaStep, hf]
  · intro hf
    constructor <;> simp [somaStep, hf]
  · simp [somaStep]

/-- A neuron one timestep behind, with a received spike, nonzero
charge and one forced spike pending. -/
def nC8 : Neuron :=
  { soma_model := fun _ => .UPDATED
    dendrite_model := fun _ => 0
    spike_count := 1
    soma_input_charge := 2
    forced_spikes := 1
    soma_last_updated := 0 }

def suC8 : SomaUnit :=
  { latency_access_neuron := 1, latency_update_neuron := 2
    latency_spiking := 4 }

theorem C8_soma_send_step_witness :
    (somaStep nC8 suC8).1.soma_hist = nC8.soma_hist ++
      [if nC8.spike_count > 0 ∨ nC8.soma_input_charge ≠ 0 then
        some nC8.soma_input_charge else none] ∧
    (nC8.forced_spikes > 0 →
      (somaStep nC8 suC8).1.status = .FIRED ∧
      (somaStep nC8 suC8).1.forced_spikes = nC8.forced_spikes - 1) ∧
    (somaStep nC8 suC8).2.2 = suC8.latency_access_neuron +
      (if (somaStep nC8 suC8).1.status = .UPDATED ∨
          (somaStep nC8 suC8).1.status = .FIRED then
        suC8.latency_update_neuron else 0) +
      (if (somaStep nC8 suC8).1.status = .FIRED then suC8.latency_spiking
       else 0) :=
  ⟨(C8_soma_send_step 1 nC8 suC8 (by norm_num [nC8])).2.1,
   (C8_soma_send_step 1 nC8 suC8 (by norm_num [nC8])).2.2.1,
   (C8_soma_send_step 1 nC8 suC8 (by norm_num [nC8])).2.2.2.2⟩

/-! ## Claim C3: generation-delay conservation

The claim says the sum of `generation_delay` over all messages (real
and placeholder) a core's process-neurons phase appends to its queue
equals the sum of the per-unit latencies the pipeline reported for the
core's neurons.  In the code, `pipeline_process_axon_out` *both* adds
`latency_access` to every materialized message (`pipeline.cpp` line
272) *and* returns `latency_access` (line 278), which
`pipeline_process_neuron` folds into `next_message_generation_delay`
(line 105) — so each real message double-counts the axon-out access
latency.  The initial accumulator value also carries into the sum. -/

def gensSum (msgs : List Message) : ℚ :=
  (msgs.map Message.generation_delay).sum

theorem gensSum_append (a b : List Message) :
    gensSum (a ++ b) = gensSum a + gensSum b := by
  simp [gensSum]

/-- Taken from the spec's words ("the sum of all per-unit latencies
reported by the pipeline for that core's neurons that timestep"):
replay the process-neurons loop, summing the
`neuron_processing_latency` each `pipeline_process_neuron` call
returns. -/
def reportedLatencies (ts : Int) : List Nat → Core → ℚ
  | [], _ => 0
  | i :: rest, core =>
      (pipeline_process_neuron ts core i).2.2 +
        reportedLatencies ts rest (pipeline_process_neuron ts core i).1

/-- The axon-out access latency double-counted by the code: one
`latency_access` of the visited neuron's axon-out unit per message
materialized at that visit (`pipeline.cpp` lines 272 and 278). -/
def axonAccessDoubleCount (ts : Int) : List Nat → Core → ℚ
  | [], _ => 0
  | i :: rest, core =>
      ((pipeline_process_neuron ts core i).2.1.length : ℚ) *
        (core.axon_out_hw.getD
          ((core.neurons.getD i default).axon_out_hw)
          default).latency_access +
        axonAccessDoubleCount ts rest (pipeline_process_neuron ts core i).1

theorem getD_set_self {α : Type} (l : List α) (i : Nat) (a d : α) :
    (l.set i a).getD i d = if i < l.length then a else d := by
  induction l generalizing i with
  | nil => simp
  | cons x xs ih =>
      cases i with
      | zero => simp
      | succ j =>
          simp only [List.set_cons_succ, List.getD_cons_succ,
            List.length_cons, ih j, Nat.add_lt_add_iff_right]

theorem getD_oob {α : Type} (l : List α) (i : Nat) (d : α)
    (h : l.length ≤ i) : l.getD i d = d := by
  induction l generalizing i with
  | nil => simp
  | cons x xs ih =>
      cases i with
      | zero => simp at h
      | succ j =>
          simp only [List.getD_cons_succ]
          exact ih j (by simpa using h)

theorem process_dendrite_axon_out_hw (ts : Int) (n : Neuron) :
    (pipeline_process_dendrite ts n).1.axon_out_hw = n.axon_out_hw := rfl

theorem somaLoop_axon_out_hw :
    ∀ (k : Nat) (n : Neuron) (su : SomaUnit),
      (somaLoop k n su).1.axon_out_hw = n.axon_out_hw
  | 0, _, _ => rfl
  | k + 1, n, su => by
      unfold somaLoop
      dsimp only
      rw [somaLoop_axon_out_hw k]
      rfl

theorem process_soma_axon_out_hw (ts : Int) (n : Neuron) (su : SomaUnit) :
    (pipeline_process_soma ts n su).1.axon_out_hw = n.axon_out_hw :=
  somaLoop_axon_out_hw _ n su

theorem neuronStage1_next_gen (ts : Int) (core : Core) (nIdx : Nat) :
    (neuronStage1 ts core nIdx).1.next_message_generation_delay =
      core.next_message_generation_delay := by
  unfold neuronStage1
  split <;> rfl

theorem neuronStage1_axon_out_hw (ts : Int) (core : Core) (nIdx : Nat) :
    (neuronStage1 ts core nIdx).1.axon_out_hw = core.axon_out_hw := by
  unfold neuronStage1
  split <;> rfl

theorem neuronStage1_field (ts : Int) (core : Core) (nIdx : Nat) :
    ((neuronStage1 ts core nIdx).1.neurons.getD nIdx default).axon_out_hw =
      (core.neurons.getD nIdx default).axon_out_hw := by
  unfold neuronStage1
  split
  · dsimp only
    rw [getD_set_self]
    split
    · exact process_dendrite_axon_out_hw ts _
    · rename_i hlen
      rw [getD_oob core.neurons nIdx default (by omega)]
  · rfl

theorem neuronStage2_next_gen (ts : Int) (pos : BufferPosition)
    (core1 : Core) (nIdx : Nat) :
    (neuronStage2 ts pos core1 nIdx).1.next_message_generation_delay =
      core1.next_message_generation_delay := by
  unfold neuronStage2
  split <;> rfl

theorem neuronStage2_axon_out_hw (ts : Int) (pos : BufferPosition)
    (core1 : Core) (nIdx : Nat) :
    (neuronStage2 ts pos core1 nIdx).1.axon_out_hw = core1.axon_out_hw := by
  unfold neuronStage2
  split <;> rfl

theorem neuronStage2_field (ts : Int) (pos : BufferPosition)
    (core1 : Core) (nIdx : Nat) :
    ((neuronStage2 ts pos core1 nIdx).1.neurons.getD nIdx
        default).axon_out_hw =
      (core1.neurons.getD nIdx default).axon_out_hw := by
  unfold neuronStage2
  split
  · dsimp only
    rw [getD_set_self]
    split
    · exact process_soma_axon_out_hw ts _ _
    · rename_i hlen
      rw [getD_oob core1.neurons nIdx default (by omega)]
  · rfl

theorem axon_out_loop_balance (core : Core) (n : Neuron) (lat : ℚ) :
    ∀ (addrs : List Nat) (acc : ℚ),
      gensSum (axon_out_loop core n lat addrs acc).1 +
          (axon_out_loop core n lat addrs acc).2 =
        acc + ((axon_out_loop core n lat addrs acc).1.length : ℚ) * lat
  | [], acc => by simp [axon_out_loop, gensSum]
  | a :: rest, acc => by
      have ih := axon_out_loop_balance core n lat rest 0
      unfold axon_out_loop
      dsimp only
      simp only [gensSum, List.map_cons, List.sum_cons, List.length_cons,
        mkSpikeMessage] at ih ⊢
      push_cast at ih ⊢
      linear_combination ih

theorem process_axon_out_balance (core : Core) (nIdx : Nat) :
    gensSum (pipeline_process_axon_out core nIdx).2.1 +
        (pipeline_process_axon_out core nIdx).1.next_message_generation_delay
      = core.next_message_generation_delay +
        ((pipeline_process_axon_out core nIdx).2.1.length : ℚ) *
          (core.axon_out_hw.getD
            ((core.neurons.getD nIdx default).axon_out_hw)
            default).latency_access := by
  unfold pipeline_process_axon_out
  dsimp only
  split
  · simp [gensSum]
  · exact axon_out_loop_balance core _ _ _ _

/-- Per-neuron balance: the generation delays of the messages a single
`pipeline_process_neuron` visit materializes, plus the accumulator it
leaves behind, equal the accumulator it started from, plus the latency
it reports, plus one axon-out `latency_access` per materialized
message. -/
theorem process_neuron_balance (ts : Int) (core : Core) (nIdx : Nat) :
    gensSum (pipeline_process_neuron ts core nIdx).2.1 +
        (pipeline_process_neuron ts core
          nIdx).1.next_message_generation_delay
      = core.next_message_generation_delay +
        (pipeline_process_neuron ts core nIdx).2.2 +
        ((pipeline_process_neuron ts core nIdx).2.1.length : ℚ) *
          (core.axon_out_hw.getD
            ((core.neurons.getD nIdx default).axon_out_hw)
            default).latency_access := by
  unfold pipeline_process_neuron
  dsimp only
  unfold neuronStage3
  split
  · have hax := process_axon_out_balance
      ((neuronStage2 ts core.timestep_buffer_pos
        (neuronStage1 ts core nIdx).1 nIdx).1) nIdx
    rw [neuronStage2_next_gen, neuronStage1_next_gen,
      neuronStage2_axon_out_hw, neuronStage1_axon_out_hw,
      neuronStage2_field, neuronStage1_field] at hax
    linarith [hax]
  · simp only [gensSum, List.map_nil, List.sum_nil, List.length_nil,
      neuronStage2_next_gen, neuronStage1_next_gen]
    push_cast
    ring

theorem processNeuronsFrom_balance (ts : Int) :
    ∀ (idxs : List Nat) (core : Core),
      gensSum (processNeuronsFrom ts idxs core).2 +
          (processNeuronsFrom ts idxs
            core).1.next_message_generation_delay
        = core.next_message_generation_delay +
          reportedLatencies ts idxs core +
          axonAccessDoubleCount ts idxs core
  | [], core => by
      simp [processNeuronsFrom, reportedLatencies, axonAccessDoubleCount,
        gensSum]
  | i :: rest, core => by
      have ih := processNeuronsFrom_balance ts rest
        (pipeline_process_neuron ts core i).1
      have hb := process_neuron_balance ts core i
      unfold processNeuronsFrom reportedLatencies axonAccessDoubleCount
      dsimp only
      rw [gensSum_append]
      linarith [ih, hb]

/-- **C3** (amended): for every core and timestep, the sum of
`generation_delay` over all messages (real and placeholder) the
process-neurons phase appends to the core's queue equals the core's
*initial* `next_message_generation_delay`, plus the sum of the
per-unit latencies the pipeline reported for the core's neurons, plus
one axon-out `latency_access` per real message — the access latency is
double-counted (added to each message at `pipeline.cpp` line 272 and
returned again into the accumulator at line 278), so the claimed exact
equality with the reported latencies alone does not hold. -/
theorem C3_amended_generation_delay_conservation (ts : Int) (core : Core) :
    gensSum (pipeline_process_neurons_core ts core).2 =
      core.next_message_generation_delay +
      reportedLatencies ts (List.range core.neurons.length) core +
      axonAccessDoubleCount ts (List.range core.neurons.length) core := by
  have hb := processNeuronsFrom_balance ts
    (List.range core.neurons.length) core
  unfold pipeline_process_neurons_core
  dsimp only
  by_cases h : (processNeuronsFrom ts (List.range core.neurons.length)
      core).1.next_message_generation_delay ≠ 0
  · rw [if_pos h]
    dsimp only
    rw [gensSum_append]
    simp only [gensSum, List.map_cons, List.map_nil, List.sum_cons,
      List.sum_nil, mkPlaceholderMessage] at hb ⊢
    linarith [hb]
  · rw [if_neg h]
    push_neg at h
    rw [h] at hb
    linarith [hb]

/-- A core refuting the original C3: buffer before the soma unit, one
neuron whose soma always fires (soma latencies `1 + 2`, no spiking
cost), one out-axon address, axon-out access latency `4`. -/
def coreC3 : Core :=
  { neurons := [{ soma_model := fun _ => .FIRED
                  dendrite_model := fun _ => 0
                  axon_out_addresses := [0] }]
    soma := [{ latency_access_neuron := 1, latency_update_neuron := 2
               latency_spiking := 0 }]
    axon_out_hw := [{ latency_access := 4 }]
    timestep_buffer_pos := .BUFFER_BEFORE_SOMA_UNIT }

/-- **C3** (counterexample): on `coreC3` the pipeline reports `7` for
the core's one neuron (soma `1 + 2`, axon-out `4`), but the appended
messages carry `4 + 7 = 11` in total: the real message is pushed with
`generation_delay = 4` (the access latency again), and the placeholder
then carries the full reported `7` — the access latency `4` is counted
twice, so the claimed equality fails. -/
theorem C3_counterexample_axon_access_double_counted :
    gensSum (pipeline_process_neurons_core 1 coreC3).2 = 11 ∧
    reportedLatencies 1 (List.range coreC3.neurons.length) coreC3 = 7 ∧
    ¬ gensSum (pipeline_process_neurons_core 1 coreC3).2 =
        reportedLatencies 1 (List.range coreC3.neurons.length) coreC3 := by
  refine ⟨?_, ?_, ?_⟩ <;>
    norm_num [pipeline_process_neurons_core, processNeuronsFrom,
      reportedLatencies, gensSum,
      pipeline_process_neuron, neuronStage1, neuronStage2, neuronStage3,
      pipeline_process_dendrite, dendriteIntegrate,
      pipeline_process_soma, somaLoop, somaStep,
      pipeline_process_axon_out, axon_out_loop, mkSpikeMessage,
      mkPlaceholderMessage, bufLe, BufferPosition.toIdx, coreC3,
      List.getD]

end SanaFe
